import Mathlib

/-!
Verification of the three-pass lexical scanner in `src/parser.rs` of the
`xr` repository. The scanner classifies raw source text into a flat stream
of tagged spans: Pass 1 groups characters into character-class spans,
Pass 2 recognises two-span structural markers, and Pass 3 resolves
comments, string/raw-string literals and char-literal/lifetime-elision
ambiguity, reporting errors as `Invalid` tokens.

Text is modelled as `List Char`; a span (`Sequence` in the source) carries
its tag and the exact slice of text it covers, so losslessness of a pass
is the statement that concatenating the emitted texts reproduces the
pass's input.
-/

namespace XR

/-- Pass-1 character classes (`LevelOneToken` in `parser.rs`). -/
inductive LevelOneToken where
  | Asterisc
  | BackSlash
  | CharDelimiter
  | Digit
  | ForwardSlash
  | Hash
  | LowerCaseB
  | LowerCaseR
  | NewLine
  | Other
  | StrDelimiter
  | UnderscoreLetter
deriving DecidableEq, Repr

/-- Classification of one character (the `From<char>` impl in `parser.rs`):
the match arms are tried in source order, so `b` and `r` are classified
before the general letter arm. -/
def LevelOneToken.fromChar (c : Char) : LevelOneToken :=
  if c = '*' then .Asterisc
  else if c = '\\' then .BackSlash
  else if c = '\'' then .CharDelimiter
  else if c = '/' then .ForwardSlash
  else if c = '#' then .Hash
  else if c = 'b' then .LowerCaseB
  else if c = 'r' then .LowerCaseR
  else if c = '"' then .StrDelimiter
  else if '0' ≤ c ∧ c ≤ '9' then .Digit
  else if c = '\r' ∨ c = '\n' then .NewLine
  else if c = '_' ∨ ('a' ≤ c ∧ c ≤ 'z') ∨ ('A' ≤ c ∧ c ≤ 'Z') then .UnderscoreLetter
  else .Other

/-- Greedy classes absorb an immediately following character of the same
class into the same span (`LevelOneToken::is_greedy`). -/
def LevelOneToken.is_greedy : LevelOneToken → Bool
  | .Digit | .Hash | .NewLine | .Other | .UnderscoreLetter => true
  | _ => false

/-- Pass-2 structural tags (`LevelTwoToken` in `parser.rs`). The source's
`StrPrefix` constructor is named `StrPref` here. -/
inductive LevelTwoToken where
  | BackSlash
  | BeginMultiLineComment
  | BeginSingleLineComment
  | CharDelimiter
  | EndMultiLineComment
  | Hash
  | NewLine (line_number : Nat)
  | Other
  | StrDelimiter
  | StrPref
  | Word
deriving DecidableEq, Repr

/-- Direct Pass-1 → Pass-2 tag mapping (the `From<LevelOneToken>` impl). -/
def LevelTwoToken.fromLevelOne : LevelOneToken → LevelTwoToken
  | .BackSlash => .BackSlash
  | .CharDelimiter => .CharDelimiter
  | .Hash => .Hash
  | .StrDelimiter => .StrDelimiter
  | _ => .Other

/-- Final tokens (`Token` in `parser.rs`). -/
inductive Token where
  | CharLiteral
  | Invalid (reason : String)
  | LifetimeElision
  | MultiLineComment
  | NewLine (line_number : Nat)
  | Other
  | SingleLineComment
  | StrLiteral
deriving DecidableEq, Repr

/-- Direct Pass-2 → Pass-3 tag mapping (the `From<LevelTwoToken>` impl). -/
def Token.fromLevelTwo : LevelTwoToken → Token
  | .NewLine line_number => .NewLine line_number
  | _ => .Other

/-- Error token for a char literal opened by something unexpected. -/
def Token.invalid_char_literal : Token := .Invalid "Invalid char literal"

/-- Error token for a raw-string opener whose delimiter is missing. -/
def Token.invalid_raw_string_literal : Token := .Invalid "Invalid raw string literal"

/-- Error token for a block-comment closer with no matching opener. -/
def Token.multi_line_comment_without_beggining : Token :=
  .Invalid "Multiline end comment detected without a beginning."

/-- Error token for a char literal or lifetime elision never closed. -/
def Token.unclosed_char_literal : Token :=
  .Invalid "Unclosed char or lifetime elision"

/-- Error token for a block comment still open at end of input, carrying the
number of unclosed nesting levels. -/
def Token.unclosed_multi_line_comment (unclosed_levels : Nat) : Token :=
  .Invalid ("Multiline comment not closed (" ++ toString unclosed_levels
    ++ " level(s) unclosed).")

/-- Error token for a string literal never closed. -/
def Token.unclosed_string_literal : Token := .Invalid "Unclosed string literal"

/-- A tagged span (`Sequence` in `parser.rs`): a tag plus the exact slice of
text it covers. -/
structure Sequence (T : Type) where
  token : T
  text : List Char
deriving DecidableEq, Repr

/-- Concatenation of the texts of a list of spans. -/
def joinTexts {T : Type} : List (Sequence T) → List Char
  | [] => []
  | s :: rest => s.text ++ joinTexts rest

/-- Pass 1 (`parse_level_one_tokens`): classify the first character; when its
class is greedy, extend the span over the following characters of the same
class; emit the span and continue after it. -/
def parse_level_one_tokens (l : List Char) : List (Sequence LevelOneToken) :=
  match l with
  | [] => []
  | c :: cs =>
    if (LevelOneToken.fromChar c).is_greedy then
      ⟨LevelOneToken.fromChar c,
          c :: cs.takeWhile (fun d => LevelOneToken.fromChar d = LevelOneToken.fromChar c)⟩ ::
        parse_level_one_tokens (cs.dropWhile (fun d => LevelOneToken.fromChar d = LevelOneToken.fromChar c))
    else
      ⟨LevelOneToken.fromChar c, [c]⟩ :: parse_level_one_tokens cs
termination_by l.length
decreasing_by
  · simp only [List.length_cons]
    exact Nat.lt_succ_of_le ((List.dropWhile_sublist _).length_le)
  · simp

/-- Character count of `'\n'` occurrences (`cout_new_lines` in the source,
spelling kept). -/
def cout_new_lines : List Char → Nat
  | [] => 0
  | c :: cs => (if c = '\n' then 1 else 0) + cout_new_lines cs

/-- Whether a Pass-1 tag may extend a word (the predicate inside
`parse_word`). -/
def isWordPart : LevelOneToken → Bool
  | .UnderscoreLetter | .Digit | .LowerCaseB | .LowerCaseR => true
  | _ => false

/-- Word extension (`parse_word`): consume following spans while their tag is
a word part; return the consumed text and the remaining spans. -/
def parse_word : List (Sequence LevelOneToken) → List Char × List (Sequence LevelOneToken)
  | [] => ([], [])
  | s :: rest =>
    if isWordPart s.token then
      let (txt, r) := parse_word rest
      (s.text ++ txt, r)
    else ([], s :: rest)

theorem parse_word_rest_sublist (l : List (Sequence LevelOneToken)) :
    (parse_word l).2.Sublist l := by
  induction l with
  | nil => simp [parse_word]
  | cons s rest ih =>
    simp only [parse_word]
    by_cases h : isWordPart s.token = true
    · simp only [h, if_pos]
      exact ih.cons s
    · simp [h]

theorem parse_word_rest_length (l : List (Sequence LevelOneToken)) :
    (parse_word l).2.length ≤ l.length :=
  (parse_word_rest_sublist l).length_le

/-- Lookahead test (the cursor's `next_token_is` in `parser.rs`): whether the
next unconsumed span exists and carries the given tag. -/
def headTokenIs {T : Type} [DecidableEq T] (t : T) : List (Sequence T) → Bool
  | [] => false
  | s :: _ => decide (s.token = t)

/-- Text of the next unconsumed span, empty when input is exhausted. -/
def headText {T : Type} : List (Sequence T) → List Char
  | [] => []
  | s :: _ => s.text

/-- Pass 2 (`parse_level_two_tokens`): consume Pass-1 spans with a one-span
lookahead, recognising two-span structural markers, merging words, and
threading the line counter (the source starts it at 1 in a local variable;
here it is the `line_number` argument). -/
def parse_level_two_tokens (line_number : Nat) :
    List (Sequence LevelOneToken) → List (Sequence LevelTwoToken)
  | [] => []
  | s :: rest =>
    match s.token with
    | .Asterisc =>
      if headTokenIs LevelOneToken.ForwardSlash rest then
        ⟨.EndMultiLineComment, s.text ++ headText rest⟩ ::
          parse_level_two_tokens line_number rest.tail
      else ⟨.Other, s.text⟩ :: parse_level_two_tokens line_number rest
    | .ForwardSlash =>
      if headTokenIs LevelOneToken.ForwardSlash rest then
        ⟨.BeginSingleLineComment, s.text ++ headText rest⟩ ::
          parse_level_two_tokens line_number rest.tail
      else if headTokenIs LevelOneToken.Asterisc rest then
        ⟨.BeginMultiLineComment, s.text ++ headText rest⟩ ::
          parse_level_two_tokens line_number rest.tail
      else ⟨.Other, s.text⟩ :: parse_level_two_tokens line_number rest
    | .LowerCaseB =>
      if headTokenIs LevelOneToken.LowerCaseR rest then
        ⟨.StrPref, s.text ++ headText rest⟩ :: parse_level_two_tokens line_number rest.tail
      else ⟨.StrPref, s.text⟩ :: parse_level_two_tokens line_number rest
    | .LowerCaseR => ⟨.StrPref, s.text⟩ :: parse_level_two_tokens line_number rest
    | .NewLine =>
      ⟨.NewLine (line_number + cout_new_lines s.text), s.text⟩ ::
        parse_level_two_tokens (line_number + cout_new_lines s.text) rest
    | .UnderscoreLetter =>
      ⟨.Word, s.text ++ (parse_word rest).1⟩ ::
        parse_level_two_tokens line_number (parse_word rest).2
    | other => ⟨LevelTwoToken.fromLevelOne other, s.text⟩ :: parse_level_two_tokens line_number rest
termination_by l => l.length
decreasing_by
  all_goals simp only [List.length_cons, List.length_tail]
  all_goals first
    | exact Nat.lt_succ_of_le (parse_word_rest_length rest)
    | omega

/-- Single-line comment body (`parse_single_line_comment`): consume following
spans until the next span is a NewLine or input ends; the newline itself is
left unconsumed. Returns the consumed text and the remaining spans. -/
def parse_single_line_comment : List (Sequence LevelTwoToken) →
    List Char × List (Sequence LevelTwoToken)
  | [] => ([], [])
  | s :: rest =>
    match s.token with
    | .NewLine _ => ([], s :: rest)
    | _ =>
      let (txt, r) := parse_single_line_comment rest
      (s.text ++ txt, r)

theorem parse_single_line_comment_rest_sublist (l : List (Sequence LevelTwoToken)) :
    (parse_single_line_comment l).2.Sublist l := by
  induction l with
  | nil => simp [parse_single_line_comment]
  | cons s rest ih =>
    simp only [parse_single_line_comment]
    match h : s.token with
    | .NewLine n => simp
    | .BackSlash | .BeginMultiLineComment | .BeginSingleLineComment | .CharDelimiter
    | .EndMultiLineComment | .Hash | .Other | .StrDelimiter | .StrPref | .Word =>
      exact ih.cons s

/-- Block comment body (`parse_multi_line_comment`): scan the spans after the
opener, incrementing the nesting level on each nested opener and
decrementing on each closer; level 0 closes the construct, end of input
reports the remaining level. Returns the token, the consumed text and the
remaining spans. -/
def parse_multi_line_comment (level : Nat) : List (Sequence LevelTwoToken) →
    Token × List Char × List (Sequence LevelTwoToken)
  | [] => (Token.unclosed_multi_line_comment level, [], [])
  | s :: rest =>
    match s.token with
    | .BeginMultiLineComment =>
      let (t, txt, r) := parse_multi_line_comment (level + 1) rest
      (t, s.text ++ txt, r)
    | .EndMultiLineComment =>
      if level = 1 then (Token.MultiLineComment, s.text, rest)
      else
        let (t, txt, r) := parse_multi_line_comment (level - 1) rest
        (t, s.text ++ txt, r)
    | _ =>
      let (t, txt, r) := parse_multi_line_comment level rest
      (t, s.text ++ txt, r)

theorem parse_multi_line_comment_rest_sublist (level : Nat)
    (l : List (Sequence LevelTwoToken)) :
    (parse_multi_line_comment level l).2.2.Sublist l := by
  induction l generalizing level with
  | nil => simp [parse_multi_line_comment]
  | cons s rest ih =>
    simp only [parse_multi_line_comment]
    match h : s.token with
    | .BeginMultiLineComment => exact (ih (level + 1)).cons s
    | .EndMultiLineComment =>
      by_cases hl : level = 1
      · simp only [hl, if_pos]
        exact (List.Sublist.refl rest).cons s
      · simp only [hl, if_neg, not_false_iff]
        exact (ih (level - 1)).cons s
    | .BackSlash | .BeginSingleLineComment | .CharDelimiter | .Hash
    | .NewLine _ | .Other | .StrDelimiter | .StrPref | .Word =>
      exact (ih level).cons s

/-- String-literal body (`parse_string_literal`): scan the spans after the
opening delimiter. Outside raw mode a BackSlash also skips the span that
follows it; a StrDelimiter closes the literal when `hash_len = 0`, or when
it is immediately followed by a Hash span of exactly `hash_len` characters
(which is then consumed too); end of input yields the unclosed-string
error. Returns the token, the consumed text and the remaining spans. -/
def parse_string_literal (raw_string : Bool) (hash_len : Nat) :
    List (Sequence LevelTwoToken) → Token × List Char × List (Sequence LevelTwoToken)
  | [] => (Token.unclosed_string_literal, [], [])
  | s :: rest =>
    match s.token with
    | .BackSlash =>
      if raw_string then
        let (t, txt, r) := parse_string_literal raw_string hash_len rest
        (t, s.text ++ txt, r)
      else
        let (t, txt, r) := parse_string_literal raw_string hash_len rest.tail
        (t, s.text ++ headText rest ++ txt, r)
    | .StrDelimiter =>
      if hash_len = 0 then (Token.StrLiteral, s.text, rest)
      else if headTokenIs LevelTwoToken.Hash rest ∧ (headText rest).length = hash_len then
        (Token.StrLiteral, s.text ++ headText rest, rest.tail)
      else
        let (t, txt, r) := parse_string_literal raw_string hash_len rest
        (t, s.text ++ txt, r)
    | _ =>
      let (t, txt, r) := parse_string_literal raw_string hash_len rest
      (t, s.text ++ txt, r)
termination_by l => l.length
decreasing_by all_goals simp only [List.length_cons, List.length_tail]; omega

theorem parse_string_literal_rest_sublist (raw_string : Bool) (hash_len : Nat)
    (l : List (Sequence LevelTwoToken)) :
    (parse_string_literal raw_string hash_len l).2.2.Sublist l := by
  induction l using parse_string_literal.induct raw_string hash_len with
  | case1 => simp [parse_string_literal]
  | case2 s rest hs hraw t txt r heq ih =>
    subst hraw
    simp only [parse_string_literal, hs, if_pos]
    exact ih.cons s
  | case3 s rest hs hraw t txt r heq ih =>
    simp only [Bool.not_eq_true] at hraw
    subst hraw
    simp only [parse_string_literal, hs, Bool.false_eq_true, if_neg, not_false_iff]
    exact (ih.trans (List.tail_sublist rest)).cons s
  | case4 s rest hs hz =>
    simp only [parse_string_literal, hs, hz, if_pos]
    exact (List.Sublist.refl rest).cons s
  | case5 s rest hs hz hclose =>
    simp only [parse_string_literal, hs, hz, if_neg, hclose, if_pos]
    exact (List.tail_sublist rest).cons s
  | case6 s rest hs hz hclose t txt r heq ih =>
    simp only [parse_string_literal, hs, hz, if_neg, hclose, not_false_iff]
    exact ih.cons s
  | case7 s rest t txt r heq h1 h2 ih =>
    have hs1 : s.token ≠ .BackSlash := fun h => h1 h
    have hs2 : s.token ≠ .StrDelimiter := fun h => h2 h
    match h : s.token with
    | .BackSlash => exact absurd h hs1
    | .StrDelimiter => exact absurd h hs2
    | .BeginMultiLineComment | .BeginSingleLineComment | .CharDelimiter
    | .EndMultiLineComment | .Hash | .NewLine _ | .Other | .StrPref | .Word =>
      simp only [parse_string_literal, h]
      exact ih.cons s

/-- Raw-string opener (`parse_raw_string_literal`): consume the span that
triggered raw parsing (the Hash run or the bare StrDelimiter after the
prefix); with a positive `hash_len` a StrDelimiter must follow the hashes,
otherwise the construct is an invalid raw string literal; then the body is
scanned in raw mode. Returns the token, the consumed text (excluding the
prefix span, added by the caller) and the remaining spans. -/
def parse_raw_string_literal (hash_len : Nat) :
    List (Sequence LevelTwoToken) → Token × List Char × List (Sequence LevelTwoToken)
  | [] =>
    if hash_len > 0 then (Token.invalid_raw_string_literal, [], [])
    else (Token.unclosed_string_literal, [], [])
  | s2 :: rest =>
    if hash_len > 0 then
      if headTokenIs LevelTwoToken.StrDelimiter rest then
        let (t, txt, r) := parse_string_literal true hash_len rest.tail
        (t, s2.text ++ headText rest ++ txt, r)
      else (Token.invalid_raw_string_literal, s2.text, rest)
    else
      let (t, txt, r) := parse_string_literal true hash_len rest
      (t, s2.text ++ txt, r)

theorem parse_raw_string_literal_rest_sublist (hash_len : Nat)
    (l : List (Sequence LevelTwoToken)) :
    (parse_raw_string_literal hash_len l).2.2.Sublist l := by
  match l with
  | [] =>
    by_cases h : hash_len > 0 <;> simp [parse_raw_string_literal, h]
  | s2 :: rest =>
    simp only [parse_raw_string_literal]
    by_cases h : hash_len > 0
    · simp only [h, if_pos]
      by_cases hd : headTokenIs LevelTwoToken.StrDelimiter rest = true
      · simp only [hd, if_pos]
        exact (((parse_string_literal_rest_sublist true hash_len rest.tail).trans
          (List.tail_sublist rest)).cons s2)
      · simp only [hd, Bool.false_eq_true, if_neg, not_false_iff]
        exact (List.Sublist.refl rest).cons s2
    · simp only [h, if_neg, not_false_iff]
      exact (parse_string_literal_rest_sublist true hash_len rest).cons s2

/-- Possible string literal after a prefix (`parse_possible_string_literal`):
a `StrPref` span `s` opens a literal only when the following span is a Hash
run (raw string with that many hashes) or a StrDelimiter (raw string with
zero hashes); otherwise, and at end of input, only the prefix span itself
is re-emitted as `Other` and the following span is left unconsumed. -/
def parse_possible_string_literal (s : Sequence LevelTwoToken) :
    List (Sequence LevelTwoToken) → Token × List Char × List (Sequence LevelTwoToken)
  | [] => (Token.Other, s.text, [])
  | s2 :: rest =>
    match s2.token with
    | .Hash =>
      let (t, txt, r) := parse_raw_string_literal s2.text.length (s2 :: rest)
      (t, s.text ++ txt, r)
    | .StrDelimiter =>
      let (t, txt, r) := parse_raw_string_literal 0 (s2 :: rest)
      (t, s.text ++ txt, r)
    | _ => (Token.Other, s.text, s2 :: rest)

theorem parse_possible_string_literal_rest_sublist (s : Sequence LevelTwoToken)
    (l : List (Sequence LevelTwoToken)) :
    (parse_possible_string_literal s l).2.2.Sublist l := by
  match l with
  | [] => simp [parse_possible_string_literal]
  | s2 :: rest =>
    simp only [parse_possible_string_literal]
    match h : s2.token with
    | .Hash => exact parse_raw_string_literal_rest_sublist s2.text.length (s2 :: rest)
    | .StrDelimiter => exact parse_raw_string_literal_rest_sublist 0 (s2 :: rest)
    | .BackSlash | .BeginMultiLineComment | .BeginSingleLineComment | .CharDelimiter
    | .EndMultiLineComment | .NewLine _ | .Other | .StrPref | .Word =>
      exact List.Sublist.refl _

/-- Char-literal tail (`parse_until_close_char_literal`): consume spans until
a CharDelimiter closes the literal or input ends unclosed. Returns the
token, the consumed text and the remaining spans. -/
def parse_until_close_char_literal :
    List (Sequence LevelTwoToken) → Token × List Char × List (Sequence LevelTwoToken)
  | [] => (Token.unclosed_char_literal, [], [])
  | s :: rest =>
    match s.token with
    | .CharDelimiter => (Token.CharLiteral, s.text, rest)
    | _ =>
      let (t, txt, r) := parse_until_close_char_literal rest
      (t, s.text ++ txt, r)

theorem parse_until_close_char_literal_rest_sublist (l : List (Sequence LevelTwoToken)) :
    (parse_until_close_char_literal l).2.2.Sublist l := by
  induction l with
  | nil => simp [parse_until_close_char_literal]
  | cons s rest ih =>
    simp only [parse_until_close_char_literal]
    match h : s.token with
    | .CharDelimiter => exact (List.Sublist.refl rest).cons s
    | .BackSlash | .BeginMultiLineComment | .BeginSingleLineComment
    | .EndMultiLineComment | .Hash | .NewLine _ | .Other | .StrDelimiter
    | .StrPref | .Word =>
      exact ih.cons s

/-- Char literal or lifetime elision (`parse_char_literal_or_elison`): `s` is
the opening CharDelimiter span, the list holds the spans after it. A
BackSlash escapes the span after it and the literal then runs to the next
CharDelimiter; a Word or string prefix makes a CharLiteral exactly when a
CharDelimiter follows immediately, and a LifetimeElision otherwise; a
StrDelimiter or Other span starts a body running to the next
CharDelimiter; other tags are an invalid char literal; end of input is an
unclosed char or lifetime elision. -/
def parse_char_literal_or_elison (s : Sequence LevelTwoToken) :
    List (Sequence LevelTwoToken) → Token × List Char × List (Sequence LevelTwoToken)
  | [] => (Token.unclosed_char_literal, s.text, [])
  | s2 :: rest =>
    match s2.token with
    | .BackSlash =>
      let (t, txt, r) := parse_until_close_char_literal rest.tail
      (t, s.text ++ s2.text ++ headText rest ++ txt, r)
    | .Word | .StrPref =>
      if headTokenIs LevelTwoToken.CharDelimiter rest then
        (Token.CharLiteral, s.text ++ s2.text ++ headText rest, rest.tail)
      else (Token.LifetimeElision, s.text ++ s2.text, rest)
    | .StrDelimiter | .Other =>
      let (t, txt, r) := parse_until_close_char_literal rest
      (t, s.text ++ s2.text ++ txt, r)
    | _ => (Token.invalid_char_literal, s.text ++ s2.text, rest)

theorem parse_char_literal_or_elison_rest_sublist (s : Sequence LevelTwoToken)
    (l : List (Sequence LevelTwoToken)) :
    (parse_char_literal_or_elison s l).2.2.Sublist l := by
  match l with
  | [] => simp [parse_char_literal_or_elison]
  | s2 :: rest =>
    simp only [parse_char_literal_or_elison]
    match h : s2.token with
    | .BackSlash =>
      exact (((parse_until_close_char_literal_rest_sublist rest.tail).trans
        (List.tail_sublist rest)).cons s2)
    | .Word | .StrPref =>
      by_cases hd : headTokenIs LevelTwoToken.CharDelimiter rest = true
      · simp only [hd, if_pos]
        exact (List.tail_sublist rest).cons s2
      · simp only [hd, Bool.false_eq_true, if_neg, not_false_iff]
        exact (List.Sublist.refl rest).cons s2
    | .StrDelimiter | .Other =>
      exact ((parse_until_close_char_literal_rest_sublist rest).cons s2)
    | .BeginMultiLineComment | .BeginSingleLineComment | .CharDelimiter
    | .EndMultiLineComment | .Hash | .NewLine _ =>
      exact (List.Sublist.refl rest).cons s2

/-- Pass 3 (`parse_level_three_tokens`): consume Pass-2 spans with one-span
lookahead, resolving comments, string and char literals; errors become
`Invalid` tokens and scanning resumes right after the erroring construct. -/
def parse_level_three_tokens :
    List (Sequence LevelTwoToken) → List (Sequence Token)
  | [] => []
  | s :: rest =>
    match s.token with
    | .BeginMultiLineComment =>
      ⟨(parse_multi_line_comment 1 rest).1, s.text ++ (parse_multi_line_comment 1 rest).2.1⟩ ::
        parse_level_three_tokens (parse_multi_line_comment 1 rest).2.2
    | .BeginSingleLineComment =>
      ⟨Token.SingleLineComment, s.text ++ (parse_single_line_comment rest).1⟩ ::
        parse_level_three_tokens (parse_single_line_comment rest).2
    | .CharDelimiter =>
      ⟨(parse_char_literal_or_elison s rest).1, (parse_char_literal_or_elison s rest).2.1⟩ ::
        parse_level_three_tokens (parse_char_literal_or_elison s rest).2.2
    | .EndMultiLineComment =>
      ⟨Token.multi_line_comment_without_beggining, s.text⟩ :: parse_level_three_tokens rest
    | .StrDelimiter =>
      ⟨(parse_string_literal false 0 rest).1, s.text ++ (parse_string_literal false 0 rest).2.1⟩ ::
        parse_level_three_tokens (parse_string_literal false 0 rest).2.2
    | .StrPref =>
      ⟨(parse_possible_string_literal s rest).1, (parse_possible_string_literal s rest).2.1⟩ ::
        parse_level_three_tokens (parse_possible_string_literal s rest).2.2
    | other => ⟨Token.fromLevelTwo other, s.text⟩ :: parse_level_three_tokens rest
termination_by l => l.length
decreasing_by
  all_goals simp only [List.length_cons]
  all_goals first
    | exact Nat.lt_succ_of_le (parse_multi_line_comment_rest_sublist 1 rest).length_le
    | exact Nat.lt_succ_of_le (parse_single_line_comment_rest_sublist rest).length_le
    | exact Nat.lt_succ_of_le (parse_char_literal_or_elison_rest_sublist s rest).length_le
    | exact Nat.lt_succ_of_le (parse_string_literal_rest_sublist false 0 rest).length_le
    | exact Nat.lt_succ_of_le (parse_possible_string_literal_rest_sublist s rest).length_le
    | omega

/-- The full pipeline (`parse` in `parser.rs`): Pass 1, then Pass 2 with the
line counter starting at 1, then Pass 3. -/
def parse (text : List Char) : List (Sequence Token) :=
  parse_level_three_tokens (parse_level_two_tokens 1 (parse_level_one_tokens text))

theorem joinTexts_head_tail {T : Type} (l : List (Sequence T)) :
    headText l ++ joinTexts l.tail = joinTexts l := by
  match l with
  | [] => simp [headText, joinTexts]
  | s :: rest => simp [headText, joinTexts]

theorem parse_level_one_tokens_lossless (l : List Char) :
    joinTexts (parse_level_one_tokens l) = l := by
  induction l using parse_level_one_tokens.induct with
  | case1 => simp [parse_level_one_tokens, joinTexts]
  | case2 c cs hg ih =>
    rw [parse_level_one_tokens]
    simp only [hg, if_pos, joinTexts]
    rw [ih]
    simp [List.takeWhile_append_dropWhile]
  | case3 c cs hg ih =>
    rw [parse_level_one_tokens]
    simp only [hg, Bool.false_eq_true, if_neg, not_false_iff, joinTexts]
    rw [ih]
    simp

theorem parse_word_join (l : List (Sequence LevelOneToken)) :
    (parse_word l).1 ++ joinTexts (parse_word l).2 = joinTexts l := by
  induction l with
  | nil => simp [parse_word, joinTexts]
  | cons s rest ih =>
    simp only [parse_word]
    by_cases h : isWordPart s.token = true
    · simp only [h, if_pos, joinTexts]
      rw [List.append_assoc, ih]
    · simp [h, joinTexts]

theorem parse_level_two_tokens_lossless (line_number : Nat)
    (l : List (Sequence LevelOneToken)) :
    joinTexts (parse_level_two_tokens line_number l) = joinTexts l := by
  induction line_number, l using parse_level_two_tokens.induct with
  | _ => simp_all [parse_level_two_tokens, joinTexts, joinTexts_head_tail, parse_word_join]


theorem parse_single_line_comment_join (l : List (Sequence LevelTwoToken)) :
    (parse_single_line_comment l).1 ++ joinTexts (parse_single_line_comment l).2 =
      joinTexts l := by
  induction l with
  | nil => simp [parse_single_line_comment, joinTexts]
  | cons s rest ih =>
    match h : s.token with
    | .NewLine n => simp [parse_single_line_comment, h, joinTexts]
    | .BackSlash | .BeginMultiLineComment | .BeginSingleLineComment | .CharDelimiter
    | .EndMultiLineComment | .Hash | .Other | .StrDelimiter | .StrPref | .Word =>
      simp only [parse_single_line_comment, h, joinTexts, List.append_assoc]
      rw [ih]

theorem parse_multi_line_comment_join (level : Nat) (l : List (Sequence LevelTwoToken)) :
    (parse_multi_line_comment level l).2.1 ++ joinTexts (parse_multi_line_comment level l).2.2 =
      joinTexts l := by
  induction l generalizing level with
  | nil => simp [parse_multi_line_comment, joinTexts]
  | cons s rest ih =>
    match h : s.token with
    | .BeginMultiLineComment =>
      simp only [parse_multi_line_comment, h, joinTexts, List.append_assoc]
      rw [ih]
    | .EndMultiLineComment =>
      by_cases hl : level = 1
      · simp [parse_multi_line_comment, h, hl, joinTexts]
      · simp only [parse_multi_line_comment, h, hl, if_neg, not_false_iff, joinTexts,
          List.append_assoc]
        rw [ih]
    | .BackSlash | .BeginSingleLineComment | .CharDelimiter | .Hash
    | .NewLine _ | .Other | .StrDelimiter | .StrPref | .Word =>
      simp only [parse_multi_line_comment, h, joinTexts, List.append_assoc]
      rw [ih]

theorem parse_string_literal_join (raw_string : Bool) (hash_len : Nat)
    (l : List (Sequence LevelTwoToken)) :
    (parse_string_literal raw_string hash_len l).2.1 ++
        joinTexts (parse_string_literal raw_string hash_len l).2.2 =
      joinTexts l := by
  induction l using parse_string_literal.induct raw_string hash_len with
  | case6 s rest hs hz hnc t txt r heq ih =>
    rw [parse_string_literal]
    simp only [hs, hz, if_neg, not_false_iff, if_neg hnc, heq]
    rw [heq] at ih
    simp only [joinTexts, List.append_assoc] at ih ⊢
    rw [ih]
  | _ => simp_all [parse_string_literal, joinTexts, joinTexts_head_tail]

theorem parse_raw_string_literal_join (hash_len : Nat)
    (l : List (Sequence LevelTwoToken)) :
    (parse_raw_string_literal hash_len l).2.1 ++
        joinTexts (parse_raw_string_literal hash_len l).2.2 =
      joinTexts l := by
  match l with
  | [] => by_cases h : hash_len > 0 <;> simp [parse_raw_string_literal, h, joinTexts]
  | s2 :: rest =>
    by_cases h : hash_len > 0
    · by_cases hd : headTokenIs LevelTwoToken.StrDelimiter rest = true
      · simp only [parse_raw_string_literal, h, hd, if_pos, joinTexts, List.append_assoc]
        rw [parse_string_literal_join, joinTexts_head_tail]
      · simp [parse_raw_string_literal, h, hd, joinTexts]
    · simp only [parse_raw_string_literal, h, if_neg, not_false_iff, joinTexts,
        List.append_assoc]
      rw [parse_string_literal_join]

theorem parse_possible_string_literal_join (s : Sequence LevelTwoToken)
    (l : List (Sequence LevelTwoToken)) :
    (parse_possible_string_literal s l).2.1 ++
        joinTexts (parse_possible_string_literal s l).2.2 =
      s.text ++ joinTexts l := by
  match l with
  | [] => simp [parse_possible_string_literal, joinTexts]
  | s2 :: rest =>
    match h : s2.token with
    | .Hash =>
      simp only [parse_possible_string_literal, h, List.append_assoc]
      rw [parse_raw_string_literal_join]
    | .StrDelimiter =>
      simp only [parse_possible_string_literal, h, List.append_assoc]
      rw [parse_raw_string_literal_join]
    | .BackSlash | .BeginMultiLineComment | .BeginSingleLineComment | .CharDelimiter
    | .EndMultiLineComment | .NewLine _ | .Other | .StrPref | .Word =>
      simp [parse_possible_string_literal, h, joinTexts]

theorem parse_until_close_char_literal_join (l : List (Sequence LevelTwoToken)) :
    (parse_until_close_char_literal l).2.1 ++
        joinTexts (parse_until_close_char_literal l).2.2 =
      joinTexts l := by
  induction l with
  | nil => simp [parse_until_close_char_literal, joinTexts]
  | cons s rest ih =>
    match h : s.token with
    | .CharDelimiter => simp [parse_until_close_char_literal, h, joinTexts]
    | .BackSlash | .BeginMultiLineComment | .BeginSingleLineComment
    | .EndMultiLineComment | .Hash | .NewLine _ | .Other | .StrDelimiter
    | .StrPref | .Word =>
      simp only [parse_until_close_char_literal, h, joinTexts, List.append_assoc]
      rw [ih]

theorem parse_char_literal_or_elison_join (s : Sequence LevelTwoToken)
    (l : List (Sequence LevelTwoToken)) :
    (parse_char_literal_or_elison s l).2.1 ++
        joinTexts (parse_char_literal_or_elison s l).2.2 =
      s.text ++ joinTexts l := by
  match l with
  | [] => simp [parse_char_literal_or_elison, joinTexts]
  | s2 :: rest =>
    match h : s2.token with
    | .BackSlash =>
      simp only [parse_char_literal_or_elison, h, joinTexts, List.append_assoc]
      rw [parse_until_close_char_literal_join, joinTexts_head_tail]
    | .Word | .StrPref =>
      by_cases hd : headTokenIs LevelTwoToken.CharDelimiter rest = true
      · simp only [parse_char_literal_or_elison, h, hd, if_pos, joinTexts, List.append_assoc]
        rw [joinTexts_head_tail]
      · simp [parse_char_literal_or_elison, h, hd, joinTexts]
    | .StrDelimiter | .Other =>
      simp only [parse_char_literal_or_elison, h, joinTexts, List.append_assoc]
      rw [parse_until_close_char_literal_join]
    | .BeginMultiLineComment | .BeginSingleLineComment | .CharDelimiter
    | .EndMultiLineComment | .Hash | .NewLine _ =>
      simp [parse_char_literal_or_elison, h, joinTexts]

theorem parse_level_three_tokens_lossless (l : List (Sequence LevelTwoToken)) :
    joinTexts (parse_level_three_tokens l) = joinTexts l := by
  induction l using parse_level_three_tokens.induct with
  | _ =>
    simp_all [parse_level_three_tokens, joinTexts, parse_multi_line_comment_join,
      parse_single_line_comment_join, parse_char_literal_or_elison_join,
      parse_string_literal_join, parse_possible_string_literal_join]

theorem parse_lossless (text : List Char) : joinTexts (parse text) = text := by
  rw [parse, parse_level_three_tokens_lossless, parse_level_two_tokens_lossless,
    parse_level_one_tokens_lossless]

/-- C1: for every input text, concatenating the `text` of every token emitted
by `parse` reproduces the input exactly, and the same holds for the output
of each pass with respect to that pass's input. In this span model
(each span carries its exact slice, outputs listed in order) the
concatenation equality is precisely the contiguity, non-overlap and
byte-for-byte coverage of the emitted spans. -/
theorem claim_C1_losslessness :
    (∀ text : List Char, joinTexts (parse text) = text) ∧
    (∀ text : List Char, joinTexts (parse_level_one_tokens text) = text) ∧
    (∀ (line_number : Nat) (spans : List (Sequence LevelOneToken)),
      joinTexts (parse_level_two_tokens line_number spans) = joinTexts spans) ∧
    (∀ spans : List (Sequence LevelTwoToken),
      joinTexts (parse_level_three_tokens spans) = joinTexts spans) :=
  ⟨parse_lossless, parse_level_one_tokens_lossless, parse_level_two_tokens_lossless,
    parse_level_three_tokens_lossless⟩

/-- Line numbers carried by the NewLine spans of a Pass-2 output, in order. -/
def newLineValues : List (Sequence LevelTwoToken) → List Nat
  | [] => []
  | s :: rest =>
    match s.token with
    | .NewLine k => k :: newLineValues rest
    | _ => newLineValues rest

/-- Spec-side description of the Pass-2 line numbers: one value per Pass-1
NewLine span, each the running counter after adding the number of
line-feed characters of that span. -/
def specLineValues (line : Nat) : List (Sequence LevelOneToken) → List Nat
  | [] => []
  | s :: rest =>
    if s.token = LevelOneToken.NewLine then
      (line + cout_new_lines s.text) :: specLineValues (line + cout_new_lines s.text) rest
    else specLineValues line rest

theorem specLineValues_tail_of_head (n : Nat) (t : LevelOneToken)
    (l : List (Sequence LevelOneToken)) (ht : headTokenIs t l = true)
    (hn : t ≠ LevelOneToken.NewLine) :
    specLineValues n l = specLineValues n l.tail := by
  match l with
  | [] => simp [headTokenIs] at ht
  | s :: rest =>
    simp only [headTokenIs, decide_eq_true_eq] at ht
    simp [specLineValues, ht, hn]

theorem specLineValues_parse_word (n : Nat) (l : List (Sequence LevelOneToken)) :
    specLineValues n (parse_word l).2 = specLineValues n l := by
  induction l with
  | nil => simp [parse_word]
  | cons s rest ih =>
    by_cases h : isWordPart s.token = true
    · have hne : s.token ≠ LevelOneToken.NewLine := by
        intro he
        rw [he] at h
        simp [isWordPart] at h
      simp only [parse_word, h, if_pos]
      rw [ih, specLineValues, if_neg hne]
    · simp [parse_word, h]

theorem newLineValues_parse_level_two (line_number : Nat)
    (l : List (Sequence LevelOneToken)) :
    newLineValues (parse_level_two_tokens line_number l) = specLineValues line_number l := by
  induction line_number, l using parse_level_two_tokens.induct with
  | case1 => simp [parse_level_two_tokens, newLineValues, specLineValues]
  | case2 n s rest hs hd ih =>
    rw [parse_level_two_tokens]
    simp only [hs, hd, if_pos, newLineValues]
    rw [ih, ← specLineValues_tail_of_head n _ rest hd (by simp), specLineValues, if_neg (by simp [hs])]
  | case3 n s rest hs hd ih =>
    rw [parse_level_two_tokens]
    simp only [hs, hd, Bool.false_eq_true, if_neg, not_false_iff, newLineValues]
    rw [ih, specLineValues, if_neg (by simp [hs])]
  | case4 n s rest hs hd ih =>
    rw [parse_level_two_tokens]
    simp only [hs, hd, if_pos, newLineValues]
    rw [ih, ← specLineValues_tail_of_head n _ rest hd (by simp), specLineValues, if_neg (by simp [hs])]
  | case5 n s rest hs hd hd2 ih =>
    rw [parse_level_two_tokens]
    simp only [hs, hd, hd2, Bool.false_eq_true, if_neg, not_false_iff, if_pos, newLineValues]
    rw [ih, ← specLineValues_tail_of_head n _ rest hd2 (by simp), specLineValues, if_neg (by simp [hs])]
  | case6 n s rest hs hd hd2 ih =>
    rw [parse_level_two_tokens]
    simp only [hs, hd, hd2, Bool.false_eq_true, if_neg, not_false_iff, newLineValues]
    rw [ih, specLineValues, if_neg (by simp [hs])]
  | case7 n s rest hs hd ih =>
    rw [parse_level_two_tokens]
    simp only [hs, hd, if_pos, newLineValues]
    rw [ih, ← specLineValues_tail_of_head n _ rest hd (by simp), specLineValues, if_neg (by simp [hs])]
  | case8 n s rest hs hd ih =>
    rw [parse_level_two_tokens]
    simp only [hs, hd, Bool.false_eq_true, if_neg, not_false_iff, newLineValues]
    rw [ih, specLineValues, if_neg (by simp [hs])]
  | case9 n s rest hs ih =>
    rw [parse_level_two_tokens]
    simp only [hs, newLineValues]
    rw [ih, specLineValues, if_neg (by simp [hs])]
  | case10 n s rest hs ih =>
    rw [parse_level_two_tokens]
    simp only [hs, newLineValues]
    rw [ih, specLineValues, if_pos (by simp [hs])]
  | case11 n s rest hs ih =>
    rw [parse_level_two_tokens]
    simp only [hs, newLineValues]
    rw [ih, specLineValues_parse_word, specLineValues, if_neg (by simp [hs])]
  | case12 n s rest hA hF hB hR hN hU ih =>
    rw [parse_level_two_tokens]
    match htok : s.token with
    | .BackSlash | .CharDelimiter | .Digit | .Hash | .Other | .StrDelimiter =>
      simp only [newLineValues, LevelTwoToken.fromLevelOne]
      rw [ih, specLineValues, if_neg (by simp [htok])]
    | .Asterisc => exact absurd htok (fun he => hA he)
    | .ForwardSlash => exact absurd htok (fun he => hF he)
    | .LowerCaseB => exact absurd htok (fun he => hB he)
    | .LowerCaseR => exact absurd htok (fun he => hR he)
    | .NewLine => exact absurd htok (fun he => hN he)
    | .UnderscoreLetter => exact absurd htok (fun he => hU he)

theorem specLineValues_chain (line : Nat) (l : List (Sequence LevelOneToken)) :
    List.Chain (fun a b => a ≤ b) line (specLineValues line l) := by
  induction l generalizing line with
  | nil => exact List.Chain.nil
  | cons s rest ih =>
    by_cases h : s.token = LevelOneToken.NewLine
    · rw [specLineValues, if_pos h]
      exact List.Chain.cons (Nat.le_add_right _ _) (ih (line + cout_new_lines s.text))
    · rw [specLineValues, if_neg h]
      exact ih line

theorem cout_new_lines_eq_zero (text : List Char) (h : ∀ c ∈ text, c ≠ '\n') :
    cout_new_lines text = 0 := by
  induction text with
  | nil => rfl
  | cons c cs ih =>
    rw [cout_new_lines, if_neg (h c (List.mem_cons_self c cs))]
    simp only [Nat.zero_add]
    exact ih (fun d hd => h d (List.mem_cons_of_mem c hd))

/-- C7: the Pass-2 line counter starts at 1 in the pipeline; the line numbers
carried by the emitted NewLine spans are exactly the running counter after
adding, at each Pass-1 NewLine span, the number of line-feed characters in
that span's text; consequently the emitted values form a non-decreasing
chain from the initial counter, and a span holding no line-feed character
(such as a run of bare carriage returns) adds nothing. -/
theorem claim_C7_line_numbers :
    (∀ (line_number : Nat) (spans : List (Sequence LevelOneToken)),
      newLineValues (parse_level_two_tokens line_number spans) =
        specLineValues line_number spans) ∧
    (∀ (line_number : Nat) (spans : List (Sequence LevelOneToken)),
      List.Chain (fun a b => a ≤ b) line_number (specLineValues line_number spans)) ∧
    (∀ (line_number : Nat) (s : Sequence LevelOneToken)
        (rest : List (Sequence LevelOneToken)), s.token = LevelOneToken.NewLine →
      parse_level_two_tokens line_number (s :: rest) =
        ⟨LevelTwoToken.NewLine (line_number + cout_new_lines s.text), s.text⟩ ::
          parse_level_two_tokens (line_number + cout_new_lines s.text) rest) ∧
    (∀ text : List Char, (∀ c ∈ text, c ≠ '\n') → cout_new_lines text = 0) ∧
    (∀ text : List Char,
      parse text = parse_level_three_tokens
        (parse_level_two_tokens 1 (parse_level_one_tokens text))) := by
  refine ⟨newLineValues_parse_level_two, specLineValues_chain, ?_, cout_new_lines_eq_zero,
    fun _ => rfl⟩
  intro n s rest hs
  rw [parse_level_two_tokens]
  simp [hs]

/-- Witness for C7 at the concrete input `"a\nb\r\nc\r"`: the emitted line
values are 2, 3 and 3 (the final bare carriage return adds nothing). -/
theorem claim_C7_witness :
    newLineValues (parse_level_two_tokens 1
        (parse_level_one_tokens ['a', '\n', 'b', '\r', '\n', 'c', '\r'])) = [2, 3, 3] ∧
    cout_new_lines ['\r'] = 0 := by
  constructor
  · rw [(claim_C7_line_numbers).1]
    simp [parse_level_one_tokens, LevelOneToken.fromChar, LevelOneToken.is_greedy,
      List.takeWhile, List.dropWhile, specLineValues, cout_new_lines]
  · exact (claim_C7_line_numbers).2.2.2.1 ['\r'] (by simp)

/-- Spec-side description of block-comment resolution: a nesting counter
(starting at 1 at the opener) is incremented at each nested opener and
decremented at each closer; reaching 0 yields the BlockComment token,
end of input yields the unclosed report carrying the counter. Returns the
token together with the number of spans consumed after the opener. -/
def specNestedComment (counter : Nat) : List (Sequence LevelTwoToken) → Token × Nat
  | [] => (Token.unclosed_multi_line_comment counter, 0)
  | s :: rest =>
    match s.token with
    | .BeginMultiLineComment =>
      ((specNestedComment (counter + 1) rest).1, (specNestedComment (counter + 1) rest).2 + 1)
    | .EndMultiLineComment =>
      if counter = 1 then (Token.MultiLineComment, 1)
      else ((specNestedComment (counter - 1) rest).1, (specNestedComment (counter - 1) rest).2 + 1)
    | _ => ((specNestedComment counter rest).1, (specNestedComment counter rest).2 + 1)

theorem parse_multi_line_comment_spec (level : Nat) (l : List (Sequence LevelTwoToken)) :
    parse_multi_line_comment level l =
      ((specNestedComment level l).1,
        joinTexts (l.take (specNestedComment level l).2),
        l.drop (specNestedComment level l).2) := by
  induction l generalizing level with
  | nil => simp [parse_multi_line_comment, specNestedComment, joinTexts]
  | cons s rest ih =>
    match h : s.token with
    | .BeginMultiLineComment =>
      rw [parse_multi_line_comment]
      simp only [h, specNestedComment, ih (level + 1), List.take_succ_cons, joinTexts,
        List.drop_succ_cons]
    | .EndMultiLineComment =>
      by_cases hl : level = 1
      · rw [parse_multi_line_comment]
        simp [h, hl, specNestedComment, joinTexts]
      · rw [parse_multi_line_comment]
        simp only [h, hl, if_neg, not_false_iff, specNestedComment, ih (level - 1),
          List.take_succ_cons, joinTexts, List.drop_succ_cons]
    | .BackSlash | .BeginSingleLineComment | .CharDelimiter | .Hash
    | .NewLine _ | .Other | .StrDelimiter | .StrPref | .Word =>
      rw [parse_multi_line_comment]
      simp only [h, specNestedComment, ih level, List.take_succ_cons, joinTexts,
        List.drop_succ_cons]

/-- C3: a BeginBlockComment span starts the nesting counter at 1; the counter
is incremented at each following BeginBlockComment span and decremented at
each EndBlockComment span; when it reaches 0 one BlockComment token is
emitted spanning the whole construct, and when input ends with the counter
still n the construct is emitted as the Invalid unclosed report carrying
that n (whose reason text interpolates n), after which scanning continues
with the remaining spans. -/
theorem claim_C3_block_comment_nesting :
    (∀ (s : Sequence LevelTwoToken) (rest : List (Sequence LevelTwoToken)),
      s.token = LevelTwoToken.BeginMultiLineComment →
      parse_level_three_tokens (s :: rest) =
        ⟨(specNestedComment 1 rest).1,
            s.text ++ joinTexts (rest.take (specNestedComment 1 rest).2)⟩ ::
          parse_level_three_tokens (rest.drop (specNestedComment 1 rest).2)) ∧
    (∀ n : Nat, Token.unclosed_multi_line_comment n =
      Token.Invalid ("Multiline comment not closed (" ++ toString n
        ++ " level(s) unclosed).")) := by
  constructor
  · intro s rest hs
    rw [parse_level_three_tokens]
    simp only [hs, parse_multi_line_comment_spec 1 rest]
  · intro n
    rfl

/-- Witness for C3: the spec's nested example collapses to one BlockComment
token spanning the whole construct, and an unclosed double opener reports
two unclosed levels. -/
theorem claim_C3_witness :
    (parse "/* a /* b */ c */".toList).map Sequence.token = [Token.MultiLineComment] ∧
    (parse "/* /*".toList).map Sequence.token =
      [Token.Invalid "Multiline comment not closed (2 level(s) unclosed)."] := by
  have h1 := (claim_C3_block_comment_nesting).1
  constructor <;>
    simp [parse, parse_level_one_tokens, parse_level_two_tokens, parse_level_three_tokens,
      parse_word, isWordPart, cout_new_lines, parse_multi_line_comment,
      parse_single_line_comment, parse_string_literal, parse_raw_string_literal,
      parse_possible_string_literal, parse_until_close_char_literal,
      parse_char_literal_or_elison, LevelOneToken.fromChar, LevelOneToken.is_greedy,
      headTokenIs, headText, LevelTwoToken.fromLevelOne, Token.fromLevelTwo,
      Token.unclosed_multi_line_comment, List.takeWhile, List.dropWhile, String.toList] <;>
    decide

/-- C4: after a string prefix followed by a Hash span of positive length
`hash_len`, a StrDelimiter must come immediately after the hashes or the
construct is the invalid-raw-string report consuming exactly the prefix
and the hashes; an opened raw-string body treats BackSlash as ordinary
content; a StrDelimiter closes the body exactly when immediately followed
by a Hash span of exactly `hash_len` characters (or immediately when
`hash_len = 0`), consuming that Hash run; a non-matching delimiter is
passed over and scanning continues; end of input yields the
unclosed-string report. -/
theorem claim_C4_raw_strings :
    (∀ (p h2 : Sequence LevelTwoToken) (rest : List (Sequence LevelTwoToken)),
      p.token = LevelTwoToken.StrPref → h2.token = LevelTwoToken.Hash →
      h2.text.length > 0 → headTokenIs LevelTwoToken.StrDelimiter rest = false →
      parse_possible_string_literal p (h2 :: rest) =
        (Token.invalid_raw_string_literal, p.text ++ h2.text, rest)) ∧
    (∀ (p h2 d : Sequence LevelTwoToken) (rest : List (Sequence LevelTwoToken)),
      p.token = LevelTwoToken.StrPref → h2.token = LevelTwoToken.Hash →
      h2.text.length > 0 → d.token = LevelTwoToken.StrDelimiter →
      parse_possible_string_literal p (h2 :: d :: rest) =
        ((parse_string_literal true h2.text.length rest).1,
          p.text ++ h2.text ++ d.text ++ (parse_string_literal true h2.text.length rest).2.1,
          (parse_string_literal true h2.text.length rest).2.2)) ∧
    (∀ (hash_len : Nat) (b : Sequence LevelTwoToken) (rest : List (Sequence LevelTwoToken)),
      b.token = LevelTwoToken.BackSlash →
      parse_string_literal true hash_len (b :: rest) =
        ((parse_string_literal true hash_len rest).1,
          b.text ++ (parse_string_literal true hash_len rest).2.1,
          (parse_string_literal true hash_len rest).2.2)) ∧
    (∀ (hash_len : Nat) (d k : Sequence LevelTwoToken) (rest : List (Sequence LevelTwoToken)),
      hash_len ≠ 0 → d.token = LevelTwoToken.StrDelimiter → k.token = LevelTwoToken.Hash →
      k.text.length = hash_len →
      parse_string_literal true hash_len (d :: k :: rest) =
        (Token.StrLiteral, d.text ++ k.text, rest)) ∧
    (∀ (d : Sequence LevelTwoToken) (rest : List (Sequence LevelTwoToken)),
      d.token = LevelTwoToken.StrDelimiter →
      parse_string_literal true 0 (d :: rest) = (Token.StrLiteral, d.text, rest)) ∧
    (∀ (hash_len : Nat) (d : Sequence LevelTwoToken) (rest : List (Sequence LevelTwoToken)),
      hash_len ≠ 0 → d.token = LevelTwoToken.StrDelimiter →
      ¬(headTokenIs LevelTwoToken.Hash rest = true ∧ (headText rest).length = hash_len) →
      parse_string_literal true hash_len (d :: rest) =
        ((parse_string_literal true hash_len rest).1,
          d.text ++ (parse_string_literal true hash_len rest).2.1,
          (parse_string_literal true hash_len rest).2.2)) ∧
    (∀ (raw_string : Bool) (hash_len : Nat),
      parse_string_literal raw_string hash_len [] =
        (Token.unclosed_string_literal, [], [])) := by
  refine ⟨?_, ?_, ?_, ?_, ?_, ?_, ?_⟩
  · intro p h2 rest hp hh hlen hd
    rw [parse_possible_string_literal]
    simp only [hh]
    rw [parse_raw_string_literal]
    simp [hlen, hd]
  · intro p h2 d rest hp hh hlen hd
    rw [parse_possible_string_literal]
    simp only [hh]
    rw [parse_raw_string_literal]
    simp [hlen, headTokenIs, headText, hd]
  · intro hash_len b rest hb
    rw [parse_string_literal]
    simp [hb]
  · intro hash_len d k rest hz hd hk hlen
    rw [parse_string_literal]
    simp [hd, hz, headTokenIs, headText, hk, hlen]
  · intro d rest hd
    rw [parse_string_literal]
    simp [hd]
  · intro hash_len d rest hz hd hnc
    rw [parse_string_literal]
    simp only [hd, hz, if_neg, not_false_iff, if_neg hnc]
  · intro raw_string hash_len
    rw [parse_string_literal]

/-- Witness for C4 on the spec's examples: a closed raw string, an unclosed
one whose final hash is missing, a raw string whose inner single hash does
not close it, and a prefix-plus-hash with no delimiter. -/
theorem claim_C4_witness :
    (parse "r#\"a\"#".toList).map Sequence.token = [Token.StrLiteral] ∧
    (parse "r#\"a\"".toList).map Sequence.token = [Token.Invalid "Unclosed string literal"] ∧
    (parse "r##\"a\"#\"##".toList).map Sequence.token = [Token.StrLiteral] ∧
    (parse "r#x".toList).map Sequence.token =
      [Token.Invalid "Invalid raw string literal", Token.Other] := by
  have h := (claim_C4_raw_strings).1
  refine ⟨?_, ?_, ?_, ?_⟩ <;>
    simp [parse, parse_level_one_tokens, parse_level_two_tokens, parse_level_three_tokens,
      parse_word, isWordPart, cout_new_lines, parse_multi_line_comment,
      parse_single_line_comment, parse_string_literal, parse_raw_string_literal,
      parse_possible_string_literal, parse_until_close_char_literal,
      parse_char_literal_or_elison, LevelOneToken.fromChar, LevelOneToken.is_greedy,
      headTokenIs, headText, LevelTwoToken.fromLevelOne, Token.fromLevelTwo,
      Token.unclosed_string_literal, Token.invalid_raw_string_literal,
      List.takeWhile, List.dropWhile, String.toList]

/-- C5: inside a plain string literal (zero hashes, opened by a bare
StrDelimiter) a BackSlash span causes the span immediately following it to
be skipped as escaped content, whatever it is — in particular an escaped
quote does not close the literal; the next unescaped StrDelimiter closes
the literal, and Pass 3 emits one token spanning the opener through the
closer; end of input before a closing StrDelimiter yields the
unclosed-string report. -/
theorem claim_C5_plain_strings :
    (∀ (b e : Sequence LevelTwoToken) (rest : List (Sequence LevelTwoToken)),
      b.token = LevelTwoToken.BackSlash →
      parse_string_literal false 0 (b :: e :: rest) =
        ((parse_string_literal false 0 rest).1,
          b.text ++ e.text ++ (parse_string_literal false 0 rest).2.1,
          (parse_string_literal false 0 rest).2.2)) ∧
    (∀ (d : Sequence LevelTwoToken) (rest : List (Sequence LevelTwoToken)),
      d.token = LevelTwoToken.StrDelimiter →
      parse_string_literal false 0 (d :: rest) = (Token.StrLiteral, d.text, rest)) ∧
    (∀ (s : Sequence LevelTwoToken) (rest : List (Sequence LevelTwoToken)),
      s.token ≠ LevelTwoToken.BackSlash → s.token ≠ LevelTwoToken.StrDelimiter →
      parse_string_literal false 0 (s :: rest) =
        ((parse_string_literal false 0 rest).1,
          s.text ++ (parse_string_literal false 0 rest).2.1,
          (parse_string_literal false 0 rest).2.2)) ∧
    (parse_string_literal false 0 [] = (Token.unclosed_string_literal, [], [])) ∧
    (∀ (s : Sequence LevelTwoToken) (rest : List (Sequence LevelTwoToken)),
      s.token = LevelTwoToken.StrDelimiter →
      parse_level_three_tokens (s :: rest) =
        ⟨(parse_string_literal false 0 rest).1,
            s.text ++ (parse_string_literal false 0 rest).2.1⟩ ::
          parse_level_three_tokens (parse_string_literal false 0 rest).2.2) := by
  refine ⟨?_, ?_, ?_, ?_, ?_⟩
  · intro b e rest hb
    rw [parse_string_literal]
    simp [hb, headText]
  · intro d rest hd
    rw [parse_string_literal]
    simp [hd]
  · intro s rest hb hd
    match h : s.token with
    | .BackSlash => exact absurd h hb
    | .StrDelimiter => exact absurd h hd
    | .BeginMultiLineComment | .BeginSingleLineComment | .CharDelimiter
    | .EndMultiLineComment | .Hash | .NewLine _ | .Other | .StrPref | .Word =>
      rw [parse_string_literal]
      simp [h]
  · rw [parse_string_literal]
  · intro s rest hs
    rw [parse_level_three_tokens]
    simp only [hs]

/-- Witness for C5 at the spec's example: the escaped quote inside
`"a\"b"` does not close the literal, and the whole input is one
StrLiteral token; an unterminated literal is reported unclosed. -/
theorem claim_C5_witness :
    parse "\"a\\\"b\"".toList =
      [⟨Token.StrLiteral, "\"a\\\"b\"".toList⟩] ∧
    (parse "\"a".toList).map Sequence.token = [Token.Invalid "Unclosed string literal"] := by
  have h := (claim_C5_plain_strings).1
  constructor <;>
    simp [parse, parse_level_one_tokens, parse_level_two_tokens, parse_level_three_tokens,
      parse_word, isWordPart, cout_new_lines, parse_string_literal,
      parse_possible_string_literal, parse_raw_string_literal, LevelOneToken.fromChar,
      LevelOneToken.is_greedy, headTokenIs, headText, LevelTwoToken.fromLevelOne,
      Token.fromLevelTwo, Token.unclosed_string_literal, List.takeWhile, List.dropWhile,
      String.toList]

theorem parse_until_close_char_literal_no_delim (l : List (Sequence LevelTwoToken))
    (h : ∀ x ∈ l, x.token ≠ LevelTwoToken.CharDelimiter) :
    parse_until_close_char_literal l = (Token.unclosed_char_literal, joinTexts l, []) := by
  induction l with
  | nil => simp [parse_until_close_char_literal, joinTexts]
  | cons s rest ih =>
    have hs : s.token ≠ LevelTwoToken.CharDelimiter := h s (List.mem_cons_self s rest)
    match ht : s.token with
    | .CharDelimiter => exact absurd ht hs
    | .BackSlash | .BeginMultiLineComment | .BeginSingleLineComment
    | .EndMultiLineComment | .Hash | .NewLine _ | .Other | .StrDelimiter
    | .StrPref | .Word =>
      rw [parse_until_close_char_literal]
      simp only [ht, ih (fun x hx => h x (List.mem_cons_of_mem s hx)), joinTexts]

/-- C6: a CharDelimiter opener followed by a Word or string-prefix span
closes as a CharLiteral exactly when the span after that is a
CharDelimiter (which is consumed), and otherwise is a LifetimeElision
consuming no closing delimiter; an opener at end of input, an escaped
body, or a body started by StrDelimiter/Other that reaches end of input
without a CharDelimiter, all yield the unclosed char-or-lifetime report. -/
theorem claim_C6_char_or_lifetime :
    (∀ (s w c : Sequence LevelTwoToken) (rest : List (Sequence LevelTwoToken)),
      (w.token = LevelTwoToken.Word ∨ w.token = LevelTwoToken.StrPref) →
      c.token = LevelTwoToken.CharDelimiter →
      parse_char_literal_or_elison s (w :: c :: rest) =
        (Token.CharLiteral, s.text ++ w.text ++ c.text, rest)) ∧
    (∀ (s w : Sequence LevelTwoToken) (rest : List (Sequence LevelTwoToken)),
      (w.token = LevelTwoToken.Word ∨ w.token = LevelTwoToken.StrPref) →
      headTokenIs LevelTwoToken.CharDelimiter rest = false →
      parse_char_literal_or_elison s (w :: rest) =
        (Token.LifetimeElision, s.text ++ w.text, rest)) ∧
    (∀ s : Sequence LevelTwoToken,
      parse_char_literal_or_elison s [] = (Token.unclosed_char_literal, s.text, [])) ∧
    (∀ (s b e : Sequence LevelTwoToken) (rest : List (Sequence LevelTwoToken)),
      b.token = LevelTwoToken.BackSlash →
      (∀ x ∈ rest, x.token ≠ LevelTwoToken.CharDelimiter) →
      parse_char_literal_or_elison s (b :: e :: rest) =
        (Token.unclosed_char_literal, s.text ++ b.text ++ e.text ++ joinTexts rest, [])) ∧
    (∀ (s o : Sequence LevelTwoToken) (rest : List (Sequence LevelTwoToken)),
      (o.token = LevelTwoToken.StrDelimiter ∨ o.token = LevelTwoToken.Other) →
      (∀ x ∈ rest, x.token ≠ LevelTwoToken.CharDelimiter) →
      parse_char_literal_or_elison s (o :: rest) =
        (Token.unclosed_char_literal, s.text ++ o.text ++ joinTexts rest, [])) ∧
    (∀ (s : Sequence LevelTwoToken) (rest : List (Sequence LevelTwoToken)),
      s.token = LevelTwoToken.CharDelimiter →
      parse_level_three_tokens (s :: rest) =
        ⟨(parse_char_literal_or_elison s rest).1, (parse_char_literal_or_elison s rest).2.1⟩ ::
          parse_level_three_tokens (parse_char_literal_or_elison s rest).2.2) := by
  refine ⟨?_, ?_, ?_, ?_, ?_, ?_⟩
  · intro s w c rest hw hc
    rw [parse_char_literal_or_elison]
    rcases hw with hw | hw <;>
      simp [hw, headTokenIs, headText, hc]
  · intro s w rest hw hd
    rw [parse_char_literal_or_elison]
    rcases hw with hw | hw <;>
      simp [hw, hd]
  · intro s
    rw [parse_char_literal_or_elison]
  · intro s b e rest hb hno
    rw [parse_char_literal_or_elison]
    simp only [hb, List.tail_cons, headText,
      parse_until_close_char_literal_no_delim rest hno, List.append_assoc]
  · intro s o rest ho hno
    rw [parse_char_literal_or_elison]
    rcases ho with ho | ho <;>
      simp [ho, parse_until_close_char_literal_no_delim rest hno]
  · intro s rest hs
    rw [parse_level_three_tokens]
    simp only [hs]

/-- Witness for C6 on the spec's examples: `'a'` is a CharLiteral, `'a` a
LifetimeElision, an escaped newline char literal closes, and a bare
opening quote at end of input is reported unclosed. -/
theorem claim_C6_witness :
    (parse "'a'".toList).map Sequence.token = [Token.CharLiteral] ∧
    (parse "'a".toList).map Sequence.token = [Token.LifetimeElision] ∧
    (parse "'\\n'".toList).map Sequence.token = [Token.CharLiteral] ∧
    (parse "'".toList).map Sequence.token =
      [Token.Invalid "Unclosed char or lifetime elision"] := by
  have h := (claim_C6_char_or_lifetime).1
  refine ⟨?_, ?_, ?_, ?_⟩ <;>
    simp [parse, parse_level_one_tokens, parse_level_two_tokens, parse_level_three_tokens,
      parse_word, isWordPart, cout_new_lines, parse_char_literal_or_elison,
      parse_until_close_char_literal, parse_possible_string_literal, LevelOneToken.fromChar,
      LevelOneToken.is_greedy, headTokenIs, headText, LevelTwoToken.fromLevelOne,
      Token.fromLevelTwo, Token.unclosed_char_literal, List.takeWhile, List.dropWhile,
      String.toList]

/-- C2 counterexample: in `r//` the string prefix `r` is followed by a
BeginSingleLineComment span (neither Hash nor StrDelimiter); the claim
says both spans are each emitted as individual Other tokens, but the
second is emitted as a SingleLineComment token. -/
theorem claim_C2_counterexample :
    (parse ['r', '/', '/']).map Sequence.token = [Token.Other, Token.SingleLineComment] ∧
    Token.SingleLineComment ≠ Token.Other := by
  constructor
  · simp [parse, parse_level_one_tokens, parse_level_two_tokens, parse_level_three_tokens,
      parse_word, isWordPart, parse_single_line_comment, parse_possible_string_literal,
      LevelOneToken.fromChar, LevelOneToken.is_greedy, headTokenIs, headText,
      LevelTwoToken.fromLevelOne, Token.fromLevelTwo, List.takeWhile, List.dropWhile]
  · decide

/-- C2 amended: when Pass 3 meets a StrPrefix span whose following span is
neither Hash nor StrDelimiter (or which is last), no literal is opened:
the StrPrefix span alone is emitted as one Other token and the following
span is left unconsumed, to be scanned normally by the main loop — so a
following Word span becomes its own individual Other token, while a
structural span such as a comment opener keeps its usual meaning. -/
theorem claim_C2_prefix_not_opener :
    (∀ (s s2 : Sequence LevelTwoToken) (rest : List (Sequence LevelTwoToken)),
      s.token = LevelTwoToken.StrPref → s2.token ≠ LevelTwoToken.Hash →
      s2.token ≠ LevelTwoToken.StrDelimiter →
      parse_level_three_tokens (s :: s2 :: rest) =
        ⟨Token.Other, s.text⟩ :: parse_level_three_tokens (s2 :: rest)) ∧
    (∀ s : Sequence LevelTwoToken, s.token = LevelTwoToken.StrPref →
      parse_level_three_tokens [s] = [⟨Token.Other, s.text⟩]) ∧
    (∀ (s s2 : Sequence LevelTwoToken) (rest : List (Sequence LevelTwoToken)),
      s.token = LevelTwoToken.StrPref → s2.token = LevelTwoToken.Word →
      parse_level_three_tokens (s :: s2 :: rest) =
        ⟨Token.Other, s.text⟩ :: ⟨Token.Other, s2.text⟩ ::
          parse_level_three_tokens rest) := by
  have key : ∀ (s s2 : Sequence LevelTwoToken) (rest : List (Sequence LevelTwoToken)),
      s.token = LevelTwoToken.StrPref → s2.token ≠ LevelTwoToken.Hash →
      s2.token ≠ LevelTwoToken.StrDelimiter →
      parse_level_three_tokens (s :: s2 :: rest) =
        ⟨Token.Other, s.text⟩ :: parse_level_three_tokens (s2 :: rest) := by
    intro s s2 rest hs hh hd
    rw [parse_level_three_tokens]
    match h2 : s2.token with
    | .Hash => exact absurd h2 hh
    | .StrDelimiter => exact absurd h2 hd
    | .BackSlash | .BeginMultiLineComment | .BeginSingleLineComment | .CharDelimiter
    | .EndMultiLineComment | .NewLine _ | .Other | .StrPref | .Word =>
      simp only [hs, parse_possible_string_literal, h2]
  refine ⟨key, ?_, ?_⟩
  · intro s hs
    rw [parse_level_three_tokens]
    simp only [hs, parse_possible_string_literal]
    rw [parse_level_three_tokens]
  · intro s s2 rest hs hw
    rw [key s s2 rest hs (by simp [hw]) (by simp [hw]), parse_level_three_tokens]
    simp only [hw, Token.fromLevelTwo]

/-- Witness for the amended C2: `bool` round-trips as the two Other tokens
`b` and `ool`. -/
theorem claim_C2_witness :
    parse ['b', 'o', 'o', 'l'] =
      [⟨Token.Other, ['b']⟩, ⟨Token.Other, ['o', 'o', 'l']⟩] := by
  have h := (claim_C2_prefix_not_opener).1
  simp [parse, parse_level_one_tokens, parse_level_two_tokens, parse_level_three_tokens,
    parse_word, isWordPart, parse_possible_string_literal, LevelOneToken.fromChar,
    LevelOneToken.is_greedy, headTokenIs, headText, LevelTwoToken.fromLevelOne,
    Token.fromLevelTwo, List.takeWhile, List.dropWhile]

theorem unclosed_mlc_ne_without_beggining (n : Nat) :
    Token.unclosed_multi_line_comment n ≠ Token.multi_line_comment_without_beggining := by
  intro h
  simp only [Token.unclosed_multi_line_comment, Token.multi_line_comment_without_beggining,
    Token.Invalid.injEq] at h
  have hd := congrArg String.data h
  simp only [String.data_append] at hd
  have h10 := congrArg (fun l => l.get? 10) hd
  simp only [List.append_assoc] at h10
  rw [List.get?_append (by decide)] at h10
  simp at h10

theorem parse_multi_line_comment_fst (level : Nat) (l : List (Sequence LevelTwoToken)) :
    (parse_multi_line_comment level l).1 = Token.MultiLineComment ∨
      ∃ n, (parse_multi_line_comment level l).1 = Token.unclosed_multi_line_comment n := by
  induction l generalizing level with
  | nil => exact Or.inr ⟨level, rfl⟩
  | cons s rest ih =>
    match h : s.token with
    | .BeginMultiLineComment =>
      rw [parse_multi_line_comment]
      simp only [h]
      exact ih (level + 1)
    | .EndMultiLineComment =>
      by_cases hl : level = 1
      · rw [parse_multi_line_comment]
        simp [h, hl]
      · rw [parse_multi_line_comment]
        simp only [h, hl, if_neg, not_false_iff]
        exact ih (level - 1)
    | .BackSlash | .BeginSingleLineComment | .CharDelimiter | .Hash
    | .NewLine _ | .Other | .StrDelimiter | .StrPref | .Word =>
      rw [parse_multi_line_comment]
      simp only [h]
      exact ih level

theorem parse_string_literal_fst (raw_string : Bool) (hash_len : Nat)
    (l : List (Sequence LevelTwoToken)) :
    (parse_string_literal raw_string hash_len l).1 = Token.StrLiteral ∨
      (parse_string_literal raw_string hash_len l).1 = Token.unclosed_string_literal := by
  induction l using parse_string_literal.induct raw_string hash_len with
  | case6 s rest hs hz hnc t txt r heq ih =>
    rw [parse_string_literal]
    simp only [hs, hz, if_neg, not_false_iff, if_neg hnc, heq]
    rw [heq] at ih
    simpa using ih
  | _ => simp_all [parse_string_literal]

theorem parse_raw_string_literal_fst (hash_len : Nat) (l : List (Sequence LevelTwoToken)) :
    (parse_raw_string_literal hash_len l).1 = Token.StrLiteral ∨
      (parse_raw_string_literal hash_len l).1 = Token.unclosed_string_literal ∨
      (parse_raw_string_literal hash_len l).1 = Token.invalid_raw_string_literal := by
  match l with
  | [] =>
    by_cases h : hash_len > 0 <;> simp [parse_raw_string_literal, h]
  | s2 :: rest =>
    rw [parse_raw_string_literal]
    by_cases h : hash_len > 0
    · by_cases hd : headTokenIs LevelTwoToken.StrDelimiter rest = true
      · simp only [h, hd, if_pos]
        rcases parse_string_literal_fst true hash_len rest.tail with hc | hc <;> simp [hc]
      · simp [h, hd]
    · simp only [h, if_neg, not_false_iff]
      rcases parse_string_literal_fst true hash_len rest with hc | hc <;> simp [hc]

theorem parse_possible_string_literal_fst (s : Sequence LevelTwoToken)
    (l : List (Sequence LevelTwoToken)) :
    (parse_possible_string_literal s l).1 = Token.Other ∨
      (parse_possible_string_literal s l).1 = Token.StrLiteral ∨
      (parse_possible_string_literal s l).1 = Token.unclosed_string_literal ∨
      (parse_possible_string_literal s l).1 = Token.invalid_raw_string_literal := by
  match l with
  | [] => simp [parse_possible_string_literal]
  | s2 :: rest =>
    rw [parse_possible_string_literal]
    match h : s2.token with
    | .Hash =>
      simp only
      exact Or.inr (parse_raw_string_literal_fst s2.text.length (s2 :: rest))
    | .StrDelimiter =>
      simp only
      exact Or.inr (parse_raw_string_literal_fst 0 (s2 :: rest))
    | .BackSlash | .BeginMultiLineComment | .BeginSingleLineComment | .CharDelimiter
    | .EndMultiLineComment | .NewLine _ | .Other | .StrPref | .Word =>
      simp

theorem parse_until_close_char_literal_fst (l : List (Sequence LevelTwoToken)) :
    (parse_until_close_char_literal l).1 = Token.CharLiteral ∨
      (parse_until_close_char_literal l).1 = Token.unclosed_char_literal := by
  induction l with
  | nil => simp [parse_until_close_char_literal]
  | cons s rest ih =>
    rw [parse_until_close_char_literal]
    match h : s.token with
    | .CharDelimiter => simp
    | .BackSlash | .BeginMultiLineComment | .BeginSingleLineComment
    | .EndMultiLineComment | .Hash | .NewLine _ | .Other | .StrDelimiter
    | .StrPref | .Word =>
      simpa using ih

theorem parse_char_literal_or_elison_fst (s : Sequence LevelTwoToken)
    (l : List (Sequence LevelTwoToken)) :
    (parse_char_literal_or_elison s l).1 = Token.CharLiteral ∨
      (parse_char_literal_or_elison s l).1 = Token.LifetimeElision ∨
      (parse_char_literal_or_elison s l).1 = Token.unclosed_char_literal ∨
      (parse_char_literal_or_elison s l).1 = Token.invalid_char_literal := by
  match l with
  | [] => simp [parse_char_literal_or_elison]
  | s2 :: rest =>
    rw [parse_char_literal_or_elison]
    match h : s2.token with
    | .BackSlash =>
      simp only
      rcases parse_until_close_char_literal_fst rest.tail with hc | hc <;> simp [hc]
    | .Word | .StrPref =>
      by_cases hd : headTokenIs LevelTwoToken.CharDelimiter rest = true <;> simp [hd]
    | .StrDelimiter | .Other =>
      simp only
      rcases parse_until_close_char_literal_fst rest with hc | hc <;> simp [hc]
    | .BeginMultiLineComment | .BeginSingleLineComment | .CharDelimiter
    | .EndMultiLineComment | .Hash | .NewLine _ =>
      simp

theorem pass3_without_beggining_mem (l : List (Sequence LevelTwoToken)) :
    Token.multi_line_comment_without_beggining ∈ (parse_level_three_tokens l).map Sequence.token →
      ∃ s ∈ l, s.token = LevelTwoToken.EndMultiLineComment := by
  induction l using parse_level_three_tokens.induct with
  | case1 => simp [parse_level_three_tokens]
  | case2 s rest hs ih =>
    rw [parse_level_three_tokens]
    simp only [hs, List.map_cons, List.mem_cons]
    rintro (hh | hh)
    · rcases parse_multi_line_comment_fst 1 rest with hc | ⟨n, hc⟩
      · rw [hc] at hh
        exact absurd hh.symm (by decide)
      · rw [hc] at hh
        exact absurd hh.symm (unclosed_mlc_ne_without_beggining n)
    · obtain ⟨x, hx, hxt⟩ := ih hh
      exact ⟨x, Or.inr ((parse_multi_line_comment_rest_sublist 1 rest).subset hx), hxt⟩
  | case3 s rest hs ih =>
    rw [parse_level_three_tokens]
    simp only [hs, List.map_cons, List.mem_cons]
    rintro (hh | hh)
    · exact absurd hh.symm (by decide)
    · obtain ⟨x, hx, hxt⟩ := ih hh
      exact ⟨x, Or.inr ((parse_single_line_comment_rest_sublist rest).subset hx), hxt⟩
  | case4 s rest hs ih =>
    rw [parse_level_three_tokens]
    simp only [hs, List.map_cons, List.mem_cons]
    rintro (hh | hh)
    · rcases parse_char_literal_or_elison_fst s rest with hc | hc | hc | hc <;>
        (rw [hc] at hh; exact absurd hh.symm (by decide))
    · obtain ⟨x, hx, hxt⟩ := ih hh
      exact ⟨x, Or.inr ((parse_char_literal_or_elison_rest_sublist s rest).subset hx), hxt⟩
  | case5 s rest hs ih =>
    rw [parse_level_three_tokens]
    simp only [hs, List.map_cons, List.mem_cons]
    rintro (hh | hh)
    · exact ⟨s, Or.inl rfl, hs⟩
    · obtain ⟨x, hx, hxt⟩ := ih hh
      exact ⟨x, Or.inr hx, hxt⟩
  | case6 s rest hs ih =>
    rw [parse_level_three_tokens]
    simp only [hs, List.map_cons, List.mem_cons]
    rintro (hh | hh)
    · rcases parse_string_literal_fst false 0 rest with hc | hc <;>
        (rw [hc] at hh; exact absurd hh.symm (by decide))
    · obtain ⟨x, hx, hxt⟩ := ih hh
      exact ⟨x, Or.inr ((parse_string_literal_rest_sublist false 0 rest).subset hx), hxt⟩
  | case7 s rest hs ih =>
    rw [parse_level_three_tokens]
    simp only [hs, List.map_cons, List.mem_cons]
    rintro (hh | hh)
    · rcases parse_possible_string_literal_fst s rest with hc | hc | hc | hc <;>
        (rw [hc] at hh; exact absurd hh.symm (by decide))
    · obtain ⟨x, hx, hxt⟩ := ih hh
      exact ⟨x, Or.inr ((parse_possible_string_literal_rest_sublist s rest).subset hx), hxt⟩
  | case8 s rest h1 h2 h3 h4 h5 h6 ih =>
    rw [parse_level_three_tokens]
    match htok : s.token with
    | .BackSlash | .Hash | .Other | .Word =>
      simp only [List.map_cons, List.mem_cons, Token.fromLevelTwo]
      rintro (hh | hh)
      · exact absurd hh.symm (by decide)
      · obtain ⟨x, hx, hxt⟩ := ih hh
        exact ⟨x, Or.inr hx, hxt⟩
    | .NewLine n =>
      simp only [List.map_cons, List.mem_cons, Token.fromLevelTwo]
      rintro (hh | hh)
      · simp [Token.multi_line_comment_without_beggining] at hh
      · obtain ⟨x, hx, hxt⟩ := ih hh
        exact ⟨x, Or.inr hx, hxt⟩
    | .BeginMultiLineComment => exact absurd htok (fun he => h1 he)
    | .BeginSingleLineComment => exact absurd htok (fun he => h2 he)
    | .CharDelimiter => exact absurd htok (fun he => h3 he)
    | .EndMultiLineComment => exact absurd htok (fun he => h4 he)
    | .StrDelimiter => exact absurd htok (fun he => h5 he)
    | .StrPref => exact absurd htok (fun he => h6 he)

/-- Number of tokens of a Pass-3 output carrying the unmatched-closer
Invalid reason. -/
def countCloserReports : List (Sequence Token) → Nat
  | [] => 0
  | x :: rest =>
    (if x.token = Token.multi_line_comment_without_beggining then 1 else 0) +
      countCloserReports rest

/-- Number of EndBlockComment spans the Pass-3 main loop encounters with no
block comment (or any other construct) open: the scan state steps exactly
as the main loop does, so a closer consumed inside a block comment body, a
single-line comment, a string/raw-string body or a char literal is matched
content and is not counted — only a closer met at top level (the spec's
"encountered with no open comment") is. This trace never looks at the
emitted tokens. -/
def unmatchedCloserCount : List (Sequence LevelTwoToken) → Nat
  | [] => 0
  | s :: rest =>
    match s.token with
    | .EndMultiLineComment => unmatchedCloserCount rest + 1
    | .BeginMultiLineComment => unmatchedCloserCount (parse_multi_line_comment 1 rest).2.2
    | .BeginSingleLineComment => unmatchedCloserCount (parse_single_line_comment rest).2
    | .CharDelimiter => unmatchedCloserCount (parse_char_literal_or_elison s rest).2.2
    | .StrDelimiter => unmatchedCloserCount (parse_string_literal false 0 rest).2.2
    | .StrPref => unmatchedCloserCount (parse_possible_string_literal s rest).2.2
    | _ => unmatchedCloserCount rest
termination_by l => l.length
decreasing_by
  all_goals simp only [List.length_cons]
  all_goals first
    | exact Nat.lt_succ_of_le (parse_multi_line_comment_rest_sublist 1 rest).length_le
    | exact Nat.lt_succ_of_le (parse_single_line_comment_rest_sublist rest).length_le
    | exact Nat.lt_succ_of_le (parse_char_literal_or_elison_rest_sublist s rest).length_le
    | exact Nat.lt_succ_of_le (parse_string_literal_rest_sublist false 0 rest).length_le
    | exact Nat.lt_succ_of_le (parse_possible_string_literal_rest_sublist s rest).length_le
    | omega

theorem countCloserReports_mem_iff (l : List (Sequence Token)) :
    Token.multi_line_comment_without_beggining ∈ l.map Sequence.token ↔
      countCloserReports l ≠ 0 := by
  induction l with
  | nil => simp [countCloserReports]
  | cons x rest ih =>
    by_cases h : x.token = Token.multi_line_comment_without_beggining
    · simp [countCloserReports, h]
    · simp only [countCloserReports, h, if_neg, not_false_iff, Nat.zero_add, List.map_cons,
        List.mem_cons, ih]
      constructor
      · rintro (hh | hh)
        · exact absurd hh.symm h
        · exact hh
      · exact Or.inr

theorem pass3_closer_report_count (l : List (Sequence LevelTwoToken)) :
    countCloserReports (parse_level_three_tokens l) = unmatchedCloserCount l := by
  induction l using parse_level_three_tokens.induct with
  | case1 => simp [parse_level_three_tokens, countCloserReports, unmatchedCloserCount]
  | case2 s rest hs ih =>
    have hne : (parse_multi_line_comment 1 rest).1 ≠
        Token.multi_line_comment_without_beggining := by
      rcases parse_multi_line_comment_fst 1 rest with hc | ⟨n, hc⟩
      · rw [hc]
        decide
      · rw [hc]
        exact unclosed_mlc_ne_without_beggining n
    rw [parse_level_three_tokens]
    simp only [hs, countCloserReports, if_neg hne, Nat.zero_add, ih, unmatchedCloserCount]
  | case3 s rest hs ih =>
    rw [parse_level_three_tokens]
    simp only [hs, countCloserReports, ih, unmatchedCloserCount]
    rw [if_neg (by decide)]
    omega
  | case4 s rest hs ih =>
    have hne : (parse_char_literal_or_elison s rest).1 ≠
        Token.multi_line_comment_without_beggining := by
      rcases parse_char_literal_or_elison_fst s rest with hc | hc | hc | hc <;>
        (rw [hc]; decide)
    rw [parse_level_three_tokens]
    simp only [hs, countCloserReports, if_neg hne, Nat.zero_add, ih, unmatchedCloserCount]
  | case5 s rest hs ih =>
    rw [parse_level_three_tokens]
    simp only [hs, countCloserReports, ih, unmatchedCloserCount, if_true]
    omega
  | case6 s rest hs ih =>
    have hne : (parse_string_literal false 0 rest).1 ≠
        Token.multi_line_comment_without_beggining := by
      rcases parse_string_literal_fst false 0 rest with hc | hc <;> (rw [hc]; decide)
    rw [parse_level_three_tokens]
    simp only [hs, countCloserReports, if_neg hne, Nat.zero_add, ih, unmatchedCloserCount]
  | case7 s rest hs ih =>
    have hne : (parse_possible_string_literal s rest).1 ≠
        Token.multi_line_comment_without_beggining := by
      rcases parse_possible_string_literal_fst s rest with hc | hc | hc | hc <;>
        (rw [hc]; decide)
    rw [parse_level_three_tokens]
    simp only [hs, countCloserReports, if_neg hne, Nat.zero_add, ih, unmatchedCloserCount]
  | case8 s rest h1 h2 h3 h4 h5 h6 ih =>
    rw [parse_level_three_tokens]
    match htok : s.token with
    | .BackSlash | .Hash | .Other | .Word =>
      simp only [countCloserReports, ih, unmatchedCloserCount, Token.fromLevelTwo]
      rw [if_neg (by decide)]
      omega
    | .NewLine n =>
      simp only [countCloserReports, ih, unmatchedCloserCount, Token.fromLevelTwo]
      rw [if_neg (by simp [Token.multi_line_comment_without_beggining])]
      omega
    | .BeginMultiLineComment => exact absurd htok (fun he => h1 he)
    | .BeginSingleLineComment => exact absurd htok (fun he => h2 he)
    | .CharDelimiter => exact absurd htok (fun he => h3 he)
    | .EndMultiLineComment => exact absurd htok (fun he => h4 he)
    | .StrDelimiter => exact absurd htok (fun he => h5 he)
    | .StrPref => exact absurd htok (fun he => h6 he)

/-- C8: an EndBlockComment span reaching the Pass-3 main loop with no block
comment open is emitted as exactly one Invalid unmatched-closer token
covering just that span, and scanning continues with the very next span;
the number of tokens carrying that Invalid reason equals exactly the
number of closers the scan encounters with no construct open (a closer
consumed inside a block comment or literal body is matched content and
produces no report); hence the reason appears in the output if and only
if such an unmatched closer occurs. -/
theorem claim_C8_unmatched_closer :
    (∀ (s : Sequence LevelTwoToken) (rest : List (Sequence LevelTwoToken)),
      s.token = LevelTwoToken.EndMultiLineComment →
      parse_level_three_tokens (s :: rest) =
        ⟨Token.multi_line_comment_without_beggining, s.text⟩ ::
          parse_level_three_tokens rest) ∧
    (∀ spans : List (Sequence LevelTwoToken),
      countCloserReports (parse_level_three_tokens spans) = unmatchedCloserCount spans) ∧
    (∀ spans : List (Sequence LevelTwoToken),
      Token.multi_line_comment_without_beggining ∈
          (parse_level_three_tokens spans).map Sequence.token ↔
        unmatchedCloserCount spans ≠ 0) := by
  refine ⟨?_, pass3_closer_report_count, ?_⟩
  · intro s rest hs
    rw [parse_level_three_tokens]
    simp only [hs]
  · intro spans
    rw [countCloserReports_mem_iff, pass3_closer_report_count]

/-- Witness for C8: `*/ x` is reported as exactly one unmatched-closer token
over the two closer characters with the rest of the input still scanned;
in `/* */ */` the first closer is matched inside the comment and only the
second is counted and reported, while `/* */` alone reports none. -/
theorem claim_C8_witness :
    parse "*/ x".toList =
      [⟨Token.Invalid "Multiline end comment detected without a beginning.", ['*', '/']⟩,
        ⟨Token.Other, [' ']⟩, ⟨Token.Other, ['x']⟩] ∧
    countCloserReports (parse "/* */ */".toList) = 1 ∧
    unmatchedCloserCount
      (parse_level_two_tokens 1 (parse_level_one_tokens "/* */ */".toList)) = 1 ∧
    countCloserReports (parse "/* */".toList) = 0 := by
  have h := (claim_C8_unmatched_closer).2.1
  refine ⟨?_, ?_, ?_, ?_⟩ <;>
    simp [parse, parse_level_one_tokens, parse_level_two_tokens, parse_level_three_tokens,
      parse_word, isWordPart, parse_multi_line_comment, countCloserReports,
      unmatchedCloserCount, Token.multi_line_comment_without_beggining,
      LevelOneToken.fromChar, LevelOneToken.is_greedy, headTokenIs, headText,
      LevelTwoToken.fromLevelOne, Token.fromLevelTwo, List.takeWhile, List.dropWhile,
      String.toList]

theorem parse_level_three_tokens_ne_nil (s : Sequence LevelTwoToken)
    (rest : List (Sequence LevelTwoToken)) :
    parse_level_three_tokens (s :: rest) ≠ [] := by
  match h : s.token with
  | .BeginMultiLineComment | .BeginSingleLineComment | .CharDelimiter
  | .EndMultiLineComment | .StrDelimiter | .StrPref
  | .BackSlash | .Hash | .NewLine _ | .Other | .Word =>
    rw [parse_level_three_tokens]
    simp [h]

/-- C9: the pipeline is a total function whose output always covers the
whole input (so no malformed construct aborts the scan and nothing after
an error is dropped); a non-empty span list always produces at least one
token; and after a mid-input error — an invalid raw-string opener or an
invalid char-literal opener — the Invalid token consumes exactly the
erroring construct and scanning resumes at the span right after it. -/
theorem claim_C9_total_scan :
    (∀ text : List Char, joinTexts (parse text) = text) ∧
    (∀ spans : List (Sequence LevelTwoToken), spans ≠ [] →
      parse_level_three_tokens spans ≠ []) ∧
    (∀ (p h2 : Sequence LevelTwoToken) (rest : List (Sequence LevelTwoToken)),
      p.token = LevelTwoToken.StrPref → h2.token = LevelTwoToken.Hash →
      h2.text.length > 0 → headTokenIs LevelTwoToken.StrDelimiter rest = false →
      parse_level_three_tokens (p :: h2 :: rest) =
        ⟨Token.invalid_raw_string_literal, p.text ++ h2.text⟩ ::
          parse_level_three_tokens rest) ∧
    (∀ (s s2 : Sequence LevelTwoToken) (rest : List (Sequence LevelTwoToken)),
      s.token = LevelTwoToken.CharDelimiter → s2.token ≠ LevelTwoToken.BackSlash →
      s2.token ≠ LevelTwoToken.Word → s2.token ≠ LevelTwoToken.StrPref →
      s2.token ≠ LevelTwoToken.StrDelimiter → s2.token ≠ LevelTwoToken.Other →
      parse_level_three_tokens (s :: s2 :: rest) =
        ⟨Token.invalid_char_literal, s.text ++ s2.text⟩ ::
          parse_level_three_tokens rest) := by
  refine ⟨parse_lossless, ?_, ?_, ?_⟩
  · intro spans hne
    match spans with
    | s :: rest => exact parse_level_three_tokens_ne_nil s rest
  · intro p h2 rest hp hh hlen hd
    rw [parse_level_three_tokens]
    simp only [hp, parse_possible_string_literal, hh]
    rw [parse_raw_string_literal]
    simp [hlen, hd]
  · intro s s2 rest hs hb hw hsp hsd ho
    rw [parse_level_three_tokens]
    simp only [hs]
    match h2 : s2.token with
    | .BackSlash => exact absurd h2 hb
    | .Word => exact absurd h2 hw
    | .StrPref => exact absurd h2 hsp
    | .StrDelimiter => exact absurd h2 hsd
    | .Other => exact absurd h2 ho
    | .BeginMultiLineComment | .BeginSingleLineComment | .CharDelimiter
    | .EndMultiLineComment | .Hash | .NewLine _ =>
      simp [parse_char_literal_or_elison, h2]

/-- Witness for C9: a malformed raw-string opener, an unmatched closer and
an unclosed literal all surface as Invalid tokens while the rest of the
input is still scanned, and the output still concatenates to the input. -/
theorem claim_C9_witness :
    (parse "r#x 'a' */".toList).map Sequence.token =
      [Token.Invalid "Invalid raw string literal", Token.Other, Token.Other,
        Token.CharLiteral, Token.Other,
        Token.Invalid "Multiline end comment detected without a beginning."] ∧
    joinTexts (parse "r#x 'a' */".toList) = "r#x 'a' */".toList := by
  refine ⟨?_, (claim_C9_total_scan).1 _⟩
  simp [parse, parse_level_one_tokens, parse_level_two_tokens, parse_level_three_tokens,
    parse_word, isWordPart, cout_new_lines, parse_string_literal, parse_raw_string_literal,
    parse_possible_string_literal, parse_until_close_char_literal,
    parse_char_literal_or_elison, Token.invalid_raw_string_literal,
    Token.multi_line_comment_without_beggining, LevelOneToken.fromChar,
    LevelOneToken.is_greedy, headTokenIs, headText, LevelTwoToken.fromLevelOne,
    Token.fromLevelTwo, List.takeWhile, List.dropWhile, String.toList]

theorem append_text_ne_nil (a u : List Char) (h : a ≠ []) : a ++ u ≠ [] := by
  intro hc
  rw [List.append_eq_nil] at hc
  exact h hc.1

theorem parse_level_one_tokens_nonempty (l : List Char) :
    ∀ x ∈ parse_level_one_tokens l, x.text ≠ [] := by
  induction l using parse_level_one_tokens.induct with
  | case1 => simp [parse_level_one_tokens]
  | case2 c cs hg ih =>
    rw [parse_level_one_tokens]
    simp only [hg, if_pos, List.mem_cons]
    rintro x (hx | hx)
    · rw [hx]
      simp
    · exact ih x hx
  | case3 c cs hg ih =>
    rw [parse_level_one_tokens]
    simp only [hg, Bool.false_eq_true, if_neg, not_false_iff, List.mem_cons]
    rintro x (hx | hx)
    · rw [hx]
      simp
    · exact ih x hx

theorem parse_level_two_tokens_nonempty (line_number : Nat)
    (l : List (Sequence LevelOneToken)) :
    (∀ x ∈ l, x.text ≠ []) → ∀ y ∈ parse_level_two_tokens line_number l, y.text ≠ [] := by
  induction line_number, l using parse_level_two_tokens.induct with
  | case1 => simp [parse_level_two_tokens]
  | case2 n s rest hs hd ih =>
    intro hl y hy
    rw [parse_level_two_tokens] at hy
    simp only [hs, hd, if_pos, List.mem_cons] at hy
    rcases hy with hy | hy
    · rw [hy]
      exact append_text_ne_nil _ _ (hl s (List.mem_cons_self s rest))
    · exact ih (fun x hx => hl x (List.mem_cons_of_mem s ((List.tail_sublist rest).subset hx))) y hy
  | case3 n s rest hs hd ih =>
    intro hl y hy
    rw [parse_level_two_tokens] at hy
    simp only [hs, hd, Bool.false_eq_true, if_neg, not_false_iff, List.mem_cons] at hy
    rcases hy with hy | hy
    · rw [hy]
      exact hl s (List.mem_cons_self s rest)
    · exact ih (fun x hx => hl x (List.mem_cons_of_mem s hx)) y hy
  | case4 n s rest hs hd ih =>
    intro hl y hy
    rw [parse_level_two_tokens] at hy
    simp only [hs, hd, if_pos, List.mem_cons] at hy
    rcases hy with hy | hy
    · rw [hy]
      exact append_text_ne_nil _ _ (hl s (List.mem_cons_self s rest))
    · exact ih (fun x hx => hl x (List.mem_cons_of_mem s ((List.tail_sublist rest).subset hx))) y hy
  | case5 n s rest hs hd hd2 ih =>
    intro hl y hy
    rw [parse_level_two_tokens] at hy
    simp only [hs, hd, hd2, Bool.false_eq_true, if_neg, not_false_iff, if_pos,
      List.mem_cons] at hy
    rcases hy with hy | hy
    · rw [hy]
      exact append_text_ne_nil _ _ (hl s (List.mem_cons_self s rest))
    · exact ih (fun x hx => hl x (List.mem_cons_of_mem s ((List.tail_sublist rest).subset hx))) y hy
  | case6 n s rest hs hd hd2 ih =>
    intro hl y hy
    rw [parse_level_two_tokens] at hy
    simp only [hs, hd, hd2, Bool.false_eq_true, if_neg, not_false_iff, List.mem_cons] at hy
    rcases hy with hy | hy
    · rw [hy]
      exact hl s (List.mem_cons_self s rest)
    · exact ih (fun x hx => hl x (List.mem_cons_of_mem s hx)) y hy
  | case7 n s rest hs hd ih =>
    intro hl y hy
    rw [parse_level_two_tokens] at hy
    simp only [hs, hd, if_pos, List.mem_cons] at hy
    rcases hy with hy | hy
    · rw [hy]
      exact append_text_ne_nil _ _ (hl s (List.mem_cons_self s rest))
    · exact ih (fun x hx => hl x (List.mem_cons_of_mem s ((List.tail_sublist rest).subset hx))) y hy
  | case8 n s rest hs hd ih =>
    intro hl y hy
    rw [parse_level_two_tokens] at hy
    simp only [hs, hd, Bool.false_eq_true, if_neg, not_false_iff, List.mem_cons] at hy
    rcases hy with hy | hy
    · rw [hy]
      exact hl s (List.mem_cons_self s rest)
    · exact ih (fun x hx => hl x (List.mem_cons_of_mem s hx)) y hy
  | case9 n s rest hs ih =>
    intro hl y hy
    rw [parse_level_two_tokens] at hy
    simp only [hs, List.mem_cons] at hy
    rcases hy with hy | hy
    · rw [hy]
      exact hl s (List.mem_cons_self s rest)
    · exact ih (fun x hx => hl x (List.mem_cons_of_mem s hx)) y hy
  | case10 n s rest hs ih =>
    intro hl y hy
    rw [parse_level_two_tokens] at hy
    simp only [hs, List.mem_cons] at hy
    rcases hy with hy | hy
    · rw [hy]
      exact hl s (List.mem_cons_self s rest)
    · exact ih (fun x hx => hl x (List.mem_cons_of_mem s hx)) y hy
  | case11 n s rest hs ih =>
    intro hl y hy
    rw [parse_level_two_tokens] at hy
    simp only [hs, List.mem_cons] at hy
    rcases hy with hy | hy
    · rw [hy]
      exact append_text_ne_nil _ _ (hl s (List.mem_cons_self s rest))
    · exact ih (fun x hx => hl x (List.mem_cons_of_mem s ((parse_word_rest_sublist rest).subset hx))) y hy
  | case12 n s rest hA hF hB hR hN hU ih =>
    intro hl y hy
    rw [parse_level_two_tokens] at hy
    match htok : s.token with
    | .BackSlash | .CharDelimiter | .Digit | .Hash | .Other | .StrDelimiter =>
      simp only [List.mem_cons] at hy
      rcases hy with hy | hy
      · rw [hy]
        exact hl s (List.mem_cons_self s rest)
      · exact ih (fun x hx => hl x (List.mem_cons_of_mem s hx)) y hy
    | .Asterisc => exact absurd htok (fun he => hA he)
    | .ForwardSlash => exact absurd htok (fun he => hF he)
    | .LowerCaseB => exact absurd htok (fun he => hB he)
    | .LowerCaseR => exact absurd htok (fun he => hR he)
    | .NewLine => exact absurd htok (fun he => hN he)
    | .UnderscoreLetter => exact absurd htok (fun he => hU he)

theorem parse_char_literal_or_elison_text_ne_nil (s : Sequence LevelTwoToken)
    (l : List (Sequence LevelTwoToken)) (hs : s.text ≠ []) :
    (parse_char_literal_or_elison s l).2.1 ≠ [] := by
  match l with
  | [] =>
    rw [parse_char_literal_or_elison]
    exact hs
  | s2 :: rest =>
    match h : s2.token with
    | .BackSlash =>
      rw [parse_char_literal_or_elison]
      simp only [h, List.append_assoc]
      exact append_text_ne_nil _ _ hs
    | .Word | .StrPref =>
      rw [parse_char_literal_or_elison]
      by_cases hd : headTokenIs LevelTwoToken.CharDelimiter rest = true <;>
        (simp only [h, hd, Bool.false_eq_true, if_pos, if_neg, not_false_iff,
          List.append_assoc]; exact append_text_ne_nil _ _ hs)
    | .StrDelimiter | .Other =>
      rw [parse_char_literal_or_elison]
      simp only [h, List.append_assoc]
      exact append_text_ne_nil _ _ hs
    | .BeginMultiLineComment | .BeginSingleLineComment | .CharDelimiter
    | .EndMultiLineComment | .Hash | .NewLine _ =>
      rw [parse_char_literal_or_elison]
      simp only [h, List.append_assoc]
      exact append_text_ne_nil _ _ hs

theorem parse_possible_string_literal_text_ne_nil (s : Sequence LevelTwoToken)
    (l : List (Sequence LevelTwoToken)) (hs : s.text ≠ []) :
    (parse_possible_string_literal s l).2.1 ≠ [] := by
  match l with
  | [] =>
    rw [parse_possible_string_literal]
    exact hs
  | s2 :: rest =>
    match h : s2.token with
    | .Hash | .StrDelimiter =>
      rw [parse_possible_string_literal]
      simp only [h, List.append_assoc]
      exact append_text_ne_nil _ _ hs
    | .BackSlash | .BeginMultiLineComment | .BeginSingleLineComment | .CharDelimiter
    | .EndMultiLineComment | .NewLine _ | .Other | .StrPref | .Word =>
      rw [parse_possible_string_literal]
      simp only [h]
      exact hs

theorem parse_level_three_tokens_nonempty (l : List (Sequence LevelTwoToken)) :
    (∀ x ∈ l, x.text ≠ []) → ∀ y ∈ parse_level_three_tokens l, y.text ≠ [] := by
  induction l using parse_level_three_tokens.induct with
  | case1 => simp [parse_level_three_tokens]
  | case2 s rest hs ih =>
    intro hl y hy
    rw [parse_level_three_tokens] at hy
    simp only [hs, List.mem_cons] at hy
    rcases hy with hy | hy
    · rw [hy]
      exact append_text_ne_nil _ _ (hl s (List.mem_cons_self s rest))
    · exact ih (fun x hx => hl x (List.mem_cons_of_mem s
        ((parse_multi_line_comment_rest_sublist 1 rest).subset hx))) y hy
  | case3 s rest hs ih =>
    intro hl y hy
    rw [parse_level_three_tokens] at hy
    simp only [hs, List.mem_cons] at hy
    rcases hy with hy | hy
    · rw [hy]
      exact append_text_ne_nil _ _ (hl s (List.mem_cons_self s rest))
    · exact ih (fun x hx => hl x (List.mem_cons_of_mem s
        ((parse_single_line_comment_rest_sublist rest).subset hx))) y hy
  | case4 s rest hs ih =>
    intro hl y hy
    rw [parse_level_three_tokens] at hy
    simp only [hs, List.mem_cons] at hy
    rcases hy with hy | hy
    · rw [hy]
      exact parse_char_literal_or_elison_text_ne_nil s rest (hl s (List.mem_cons_self s rest))
    · exact ih (fun x hx => hl x (List.mem_cons_of_mem s
        ((parse_char_literal_or_elison_rest_sublist s rest).subset hx))) y hy
  | case5 s rest hs ih =>
    intro hl y hy
    rw [parse_level_three_tokens] at hy
    simp only [hs, List.mem_cons] at hy
    rcases hy with hy | hy
    · rw [hy]
      exact hl s (List.mem_cons_self s rest)
    · exact ih (fun x hx => hl x (List.mem_cons_of_mem s hx)) y hy
  | case6 s rest hs ih =>
    intro hl y hy
    rw [parse_level_three_tokens] at hy
    simp only [hs, List.mem_cons] at hy
    rcases hy with hy | hy
    · rw [hy]
      exact append_text_ne_nil _ _ (hl s (List.mem_cons_self s rest))
    · exact ih (fun x hx => hl x (List.mem_cons_of_mem s
        ((parse_string_literal_rest_sublist false 0 rest).subset hx))) y hy
  | case7 s rest hs ih =>
    intro hl y hy
    rw [parse_level_three_tokens] at hy
    simp only [hs, List.mem_cons] at hy
    rcases hy with hy | hy
    · rw [hy]
      exact parse_possible_string_literal_text_ne_nil s rest (hl s (List.mem_cons_self s rest))
    · exact ih (fun x hx => hl x (List.mem_cons_of_mem s
        ((parse_possible_string_literal_rest_sublist s rest).subset hx))) y hy
  | case8 s rest h1 h2 h3 h4 h5 h6 ih =>
    intro hl y hy
    rw [parse_level_three_tokens] at hy
    match htok : s.token with
    | .BackSlash | .Hash | .NewLine _ | .Other | .Word =>
      simp only [List.mem_cons] at hy
      rcases hy with hy | hy
      · rw [hy]
        exact hl s (List.mem_cons_self s rest)
      · exact ih (fun x hx => hl x (List.mem_cons_of_mem s hx)) y hy
    | .BeginMultiLineComment => exact absurd htok (fun he => h1 he)
    | .BeginSingleLineComment => exact absurd htok (fun he => h2 he)
    | .CharDelimiter => exact absurd htok (fun he => h3 he)
    | .EndMultiLineComment => exact absurd htok (fun he => h4 he)
    | .StrDelimiter => exact absurd htok (fun he => h5 he)
    | .StrPref => exact absurd htok (fun he => h6 he)

/-- C10: every token emitted by `parse` covers at least one character of the
input (Pass-1 spans hold at least one character and every later span
starts with the text of the first span it consumes), and the empty input
produces the empty token sequence. -/
theorem claim_C10_nonempty_tokens :
    (∀ (text : List Char) (x : Sequence Token), x ∈ parse text → x.text ≠ []) ∧
    parse [] = [] := by
  constructor
  · intro text x hx
    exact parse_level_three_tokens_nonempty _
      (parse_level_two_tokens_nonempty 1 _ (parse_level_one_tokens_nonempty text)) x hx
  · simp [parse, parse_level_one_tokens, parse_level_two_tokens, parse_level_three_tokens]

/-- Witness for C10: the one-character input `b` yields one token whose text
is the non-empty `['b']`. -/
theorem claim_C10_witness :
    parse ['b'] = [⟨Token.Other, ['b']⟩] ∧
    (⟨Token.Other, ['b']⟩ : Sequence Token).text ≠ [] := by
  constructor
  · simp [parse, parse_level_one_tokens, parse_level_two_tokens, parse_level_three_tokens,
      parse_possible_string_literal, LevelOneToken.fromChar, LevelOneToken.is_greedy,
      headTokenIs, headText, LevelTwoToken.fromLevelOne, Token.fromLevelTwo,
      List.takeWhile, List.dropWhile]
  · exact (claim_C10_nonempty_tokens).1 ['b'] ⟨Token.Other, ['b']⟩ (by
      simp [parse, parse_level_one_tokens, parse_level_two_tokens, parse_level_three_tokens,
        parse_possible_string_literal, LevelOneToken.fromChar, LevelOneToken.is_greedy,
        headTokenIs, headText, LevelTwoToken.fromLevelOne, Token.fromLevelTwo,
        List.takeWhile, List.dropWhile])
